import Mathlib

/-! Theme id registries (`visage_graphics/theme.h`)

A shallow embedding of the three id registries of `namespace theme`
(`ColorId`, `ValueId`, `OverrideId`) and of the helper `nameFromPath`.

Conventions of the embedding:

* `std::string` is the list of its `char`s (`CppString`); indices are
  positions in that list, and the order is the lexicographic one.
* `size_t` is a `Nat` below `2 ^ 64`, `unsigned int` a `Nat` below `2 ^ 32`;
  every arithmetic step of the source that can wrap carries its `%`.
* `int` is an `Int`; the conversion `unsigned int → int` is two's complement.
* `std::map<K, V>` is the list of its entries in ascending key order,
  bundled with the proof that the keys are strictly increasing.
* The function-local singletons (`instance()`) become an explicit state that
  every operation receives and returns.
* A thrown C++ exception or a fatal assertion is the value `none`.
-/

namespace theme

/-! ## `std::map` -/

/-- Entry list after `m[k] = v` on a key-ordered entry list: the entry with key
`k` is replaced if there is one, otherwise `(k, v)` is put at its place in the key order. -/
def insertEntry {K V : Type} [LinearOrder K] : List (K × V) → K → V → List (K × V)
  | [], k, v => [(k, v)]
  | (k', v') :: rest, k, v =>
    if k < k' then (k, v) :: (k', v') :: rest
    else if k = k' then (k, v) :: rest
    else (k', v') :: insertEntry rest k v

/-- Value stored under key `k` in an entry list, if any. -/
def findEntry {K V : Type} [DecidableEq K] : List (K × V) → K → Option V
  | [], _ => none
  | (k', v') :: rest, k => if k = k' then some v' else findEntry rest k

/-- Key order of a `std::map`: strictly increasing keys. -/
def KeysAscending {K V : Type} [LinearOrder K] (l : List (K × V)) : Prop :=
  l.Pairwise (fun a b => a.1 < b.1)

theorem mem_insertEntry {K V : Type} [LinearOrder K] (l : List (K × V)) (k : K) (v : V)
    (e : K × V) (he : e ∈ insertEntry l k v) : e = (k, v) ∨ e ∈ l := by
  induction l with
  | nil =>
    simp only [insertEntry, List.mem_singleton] at he
    exact Or.inl he
  | cons hd tl ih =>
    obtain ⟨k', v'⟩ := hd
    simp only [insertEntry] at he
    split_ifs at he with h1 h2
    · rcases List.mem_cons.1 he with h | h
      · exact Or.inl h
      · exact Or.inr h
    · rcases List.mem_cons.1 he with h | h
      · exact Or.inl h
      · exact Or.inr (List.mem_cons_of_mem _ h)
    · rcases List.mem_cons.1 he with h | h
      · exact Or.inr (by rw [h]; exact List.mem_cons_self _ _)
      · rcases ih h with h' | h'
        · exact Or.inl h'
        · exact Or.inr (List.mem_cons_of_mem _ h')

theorem insertEntry_ascending {K V : Type} [LinearOrder K] (l : List (K × V)) (k : K) (v : V)
    (hl : KeysAscending l) : KeysAscending (insertEntry l k v) := by
  induction l with
  | nil => simp [insertEntry, KeysAscending]
  | cons hd tl ih =>
    obtain ⟨k', v'⟩ := hd
    unfold KeysAscending at hl ih ⊢
    rw [List.pairwise_cons] at hl
    simp only [insertEntry]
    split_ifs with h1 h2
    · refine List.pairwise_cons.2 ⟨?_, List.pairwise_cons.2 hl⟩
      intro e he
      rcases List.mem_cons.1 he with h | h
      · rw [h]; exact h1
      · exact lt_trans h1 (hl.1 e h)
    · refine List.pairwise_cons.2 ⟨?_, hl.2⟩
      intro e he
      rw [h2]; exact hl.1 e he
    · refine List.pairwise_cons.2 ⟨?_, ih hl.2⟩
      intro e he
      rcases mem_insertEntry tl k v e he with h | h
      · rw [h]
        exact lt_of_le_of_ne (not_lt.1 h1) (fun h' => h2 h'.symm)
      · exact hl.1 e h

/-- A `std::map<K, V>`: its entries in iteration (ascending key) order. -/
structure StdMap (K V : Type) [LinearOrder K] where
  entries : List (K × V)
  ordered : KeysAscending entries

namespace StdMap

variable {K V : Type} [LinearOrder K]

/-- The empty map. -/
def empty : StdMap K V := ⟨[], List.Pairwise.nil⟩

/-- Lookup without insertion (`std::map::find`). -/
def find (m : StdMap K V) (k : K) : Option V := findEntry m.entries k

/-- The statement `m[k] = v`. -/
def assign (m : StdMap K V) (k : K) (v : V) : StdMap K V :=
  ⟨insertEntry m.entries k v, insertEntry_ascending m.entries k v m.ordered⟩

/-- The expression `m[k]` read as a value: `std::map::operator[]` returns the
stored value, and when the key is absent it first inserts a value-initialised
entry under `k`. The second component is the map afterwards. -/
def index [Inhabited V] (m : StdMap K V) (k : K) : V × StdMap K V :=
  match m.find k with
  | some v => (v, m)
  | none => (default, m.assign k default)

end StdMap

/-! ## `std::string` and `nameFromPath` -/

/-- A `std::string`: the sequence of its characters. -/
abbrev CppString : Type := List Char

/-- Number of values of `size_t`. -/
def SIZE_MOD : Nat := 2 ^ 64

/-- Number of values of `unsigned int`. -/
def UINT_MOD : Nat := 2 ^ 32

/-- The constant `std::string::npos`, the largest `size_t`. -/
def npos : Nat := SIZE_MOD - 1

/-- Index of the last element satisfying `p`, if there is one. -/
def lastIndexOf (p : Char → Bool) : List Char → Option Nat
  | [] => none
  | c :: cs =>
    match lastIndexOf p cs with
    | some i => some (i + 1)
    | none => if p c then some 0 else none

/-- The call `s.find_last_of(chars)`: the index of the last character of `s`
that occurs in `chars`, or `npos`. -/
def find_last_of (s : CppString) (chars : CppString) : Nat :=
  match lastIndexOf (fun c => chars.contains c) s with
  | some i => i
  | none => npos

/-- The call `s.substr(pos, len)`: throws `std::out_of_range` (here `none`) when
`pos > s.size()`, otherwise the characters `[pos, pos + min(len, size - pos))`. -/
def substr (s : CppString) (pos len : Nat) : Option CppString :=
  if pos > s.length then none else some ((s.drop pos).take len)

/-- The function `theme::nameFromPath`. -/
def nameFromPath (file_path : CppString) : Option CppString :=
  let start := find_last_of file_path "\\/".data
  let stop := find_last_of file_path ".".data
  let start := if start = npos then 0 else start
  let stop := if stop = npos then file_path.length else stop
  substr file_path ((start + 1) % SIZE_MOD) ((stop + SIZE_MOD - start - 1) % SIZE_MOD)

/-- Whether `i` is the index of the last character of `s` that occurs in
`chars`: the character at `i` occurs in `chars` and none after it does. -/
def isLastOccurrence (chars s : CppString) (i : Nat) : Bool :=
  s[i]?.any (fun c => chars.contains c) && (s.drop (i + 1)).all (fun c => !chars.contains c)

/-! ## Integer conversions -/

/-- Conversion of an `unsigned int` to `int` (two's complement), as performed
by the `return` of the `int`-valued count functions. -/
def toInt (n : Nat) : Int := if n < 2 ^ 31 then (n : Int) else (n : Int) - 2 ^ 32

/-- The largest value of `int`. -/
def INT_MAX : Nat := 2 ^ 31 - 1

/-! ## `ColorId` -/

/-- The struct `ColorId::ColorIdInfo`. -/
structure ColorId.ColorIdInfo where
  name : CppString := []
  group : CppString := []
  default_color : Nat := 0
  deriving DecidableEq

instance : Inhabited ColorId.ColorIdInfo := ⟨{}⟩

/-- The state of the `ColorId` singleton; the defaults are the member initialisers. -/
structure ColorId where
  next_id_ : Nat := 0
  info_map_ : StdMap Nat ColorId.ColorIdInfo := StdMap.empty

namespace ColorId

/-- The singleton as first constructed by `instance()`. -/
def fresh : ColorId := {}

/-- The function `ColorId::nextId`. The right-hand side of the assignment is
evaluated first, so an exception of `nameFromPath` leaves the registry untouched. -/
def nextId (r : ColorId) (name file_path : CppString) (default_color : Nat) :
    Option (Nat × ColorId) :=
  match nameFromPath file_path with
  | none => none
  | some group =>
    some (r.next_id_,
      { next_id_ := (r.next_id_ + 1) % UINT_MOD,
        info_map_ := r.info_map_.assign r.next_id_ ⟨name, group, default_color⟩ })

/-- The function `ColorId::defaultColor`. -/
def defaultColor (r : ColorId) (color_id : Nat) : Nat × ColorId :=
  let a := r.info_map_.index color_id
  (a.1.default_color, { r with info_map_ := a.2 })

/-- The function `ColorId::groupName`. -/
def groupName (r : ColorId) (color_id : Nat) : CppString × ColorId :=
  let a := r.info_map_.index color_id
  (a.1.group, { r with info_map_ := a.2 })

/-- The function `ColorId::name`. -/
def name (r : ColorId) (color_id : Nat) : CppString × ColorId :=
  let a := r.info_map_.index color_id
  (a.1.name, { r with info_map_ := a.2 })

/-- The function `ColorId::nameIdMap`. -/
def nameIdMap (r : ColorId) : StdMap CppString Nat :=
  r.info_map_.entries.foldl
    (fun result assignment => result.assign assignment.2.name assignment.1) StdMap.empty

/-- The function `ColorId::numColorIds`. -/
def numColorIds (r : ColorId) : Int := toInt r.next_id_

/-- The registry after `info_map_[k]` has inserted a value-initialised entry
under the key `k`. -/
def withDefaultEntry (r : ColorId) (k : Nat) : ColorId :=
  { r with info_map_ := r.info_map_.assign k default }

/-- A sequence of `nextId` calls in order; the ids returned and the final state.
An exception in one call ends the run. -/
def registerAll (r : ColorId) :
    List (CppString × CppString × Nat) → Option (List Nat × ColorId)
  | [] => some ([], r)
  | (name, file_path, default_color) :: rest =>
    match r.nextId name file_path default_color with
    | none => none
    | some (i, r') =>
      match registerAll r' rest with
      | none => none
      | some (ids, r'') => some (i :: ids, r'')

/-- The registry after the colour "Red" of the file `colors/Red.h` has been
registered on a fresh one. -/
def oneColor : ColorId :=
  { next_id_ := 1,
    info_map_ := StdMap.empty.assign 0 ⟨"Red".data, "Red".data, 0xFFFF0000⟩ }

/-- A registration sequence one longer than the range of the 32-bit counter:
`2 ^ 32` registrations of a colour `a`, then one of a colour `b`. -/
def wrapAroundColors : List (CppString × CppString × Nat) :=
  List.replicate UINT_MOD ("a".data, "d/a.h".data, 0) ++ [("b".data, "d/b.h".data, 1)]

/-- A registration sequence that brings the counter to the largest `int`:
`2 ^ 31 - 1` registrations of a colour `a`. -/
def manyColors : List (CppString × CppString × Nat) :=
  List.replicate INT_MAX ("a".data, "d/a.h".data, 0)

/-- A registration sequence as long as the range of the 32-bit counter:
`2 ^ 32` registrations of a colour `a`. -/
def fullRangeColors : List (CppString × CppString × Nat) :=
  List.replicate UINT_MOD ("a".data, "d/a.h".data, 0)

/-- A registration sequence one longer than the largest `int`: `2 ^ 31`
registrations of a colour `a`. -/
def halfRangeColors : List (CppString × CppString × Nat) :=
  List.replicate (INT_MAX + 1) ("a".data, "d/a.h".data, 0)

end ColorId

/-! ## `ValueId` -/

/-- The enum `ValueId::ScaleType`. -/
inductive ValueId.ScaleType where
  | kConstant
  | kScaledDpi
  | kScaledWidth
  | kScaledHeight
  | kNumScaleTypes
  deriving DecidableEq

/-- The struct `ValueId::ValueIdInfo`. A `float` is represented by its bit
pattern: the registry only stores and copies it. -/
structure ValueId.ValueIdInfo where
  name : CppString := []
  group : CppString := []
  default_value : Nat := 0
  scale_type : ValueId.ScaleType := ValueId.ScaleType.kConstant
  round_to_pixel : Bool := false
  deriving DecidableEq

instance : Inhabited ValueId.ValueIdInfo := ⟨{}⟩

/-- The state of the `ValueId` singleton. -/
structure ValueId where
  next_id_ : Nat := 0
  info_map_ : StdMap Nat ValueId.ValueIdInfo := StdMap.empty

namespace ValueId

/-- The singleton as first constructed by `instance()`. -/
def fresh : ValueId := {}

/-- The function `ValueId::nextId`; `none` is the exception of `nameFromPath`
(which ends the program, the function being `noexcept`). -/
def nextId (r : ValueId) (name file_path : CppString) (default_value : Nat)
    (scale_type : ValueId.ScaleType) (round_to_pixel : Bool) : Option (Nat × ValueId) :=
  match nameFromPath file_path with
  | none => none
  | some group =>
    some (r.next_id_,
      { next_id_ := (r.next_id_ + 1) % UINT_MOD,
        info_map_ := r.info_map_.assign r.next_id_
          ⟨name, group, default_value, scale_type, round_to_pixel⟩ })

/-- The function `ValueId::defaultValue`. -/
def defaultValue (r : ValueId) (value_id : Nat) : Nat × ValueId :=
  let a := r.info_map_.index value_id
  (a.1.default_value, { r with info_map_ := a.2 })

/-- The function `ValueId::info`. -/
def info (r : ValueId) (value_id : Nat) : ValueId.ValueIdInfo × ValueId :=
  let a := r.info_map_.index value_id
  (a.1, { r with info_map_ := a.2 })

/-- The function `ValueId::groupName`. -/
def groupName (r : ValueId) (value_id : Nat) : CppString × ValueId :=
  let a := r.info_map_.index value_id
  (a.1.group, { r with info_map_ := a.2 })

/-- The function `ValueId::name`. -/
def name (r : ValueId) (value_id : Nat) : CppString × ValueId :=
  let a := r.info_map_.index value_id
  (a.1.name, { r with info_map_ := a.2 })

/-- The function `ValueId::nameIdMap`. -/
def nameIdMap (r : ValueId) : StdMap CppString Nat :=
  r.info_map_.entries.foldl
    (fun result assignment => result.assign assignment.2.name assignment.1) StdMap.empty

/-- The function `ValueId::numValueIds`. -/
def numValueIds (r : ValueId) : Int := toInt r.next_id_

/-- The registry after `info_map_[k]` has inserted a value-initialised entry
under the key `k`. -/
def withDefaultEntry (r : ValueId) (k : Nat) : ValueId :=
  { r with info_map_ := r.info_map_.assign k default }

/-- A sequence of `nextId` calls in order; the ids returned and the final state. -/
def registerAll (r : ValueId) :
    List (CppString × CppString × Nat × ValueId.ScaleType × Bool) →
      Option (List Nat × ValueId)
  | [] => some ([], r)
  | (name, file_path, default_value, scale_type, round_to_pixel) :: rest =>
    match r.nextId name file_path default_value scale_type round_to_pixel with
    | none => none
    | some (i, r') =>
      match registerAll r' rest with
      | none => none
      | some (ids, r'') => some (i :: ids, r'')

/-- The registry after the value "Gap" of the file `ui/Knob.cpp` has been
registered on a fresh one. -/
def oneValue : ValueId :=
  { next_id_ := 1,
    info_map_ := StdMap.empty.assign 0
      ⟨"Gap".data, "Knob".data, 0x41200000, ValueId.ScaleType.kScaledDpi, true⟩ }

/-- A registration sequence as long as the range of the 32-bit counter:
`2 ^ 32` registrations of a value `b` with default `2.0f`. -/
def wrapAroundValues : List (CppString × CppString × Nat × ValueId.ScaleType × Bool) :=
  List.replicate (UINT_MOD - 1)
      ("b".data, "d/b.h".data, 0x40000000, ValueId.ScaleType.kScaledDpi, true) ++
    [("b".data, "d/b.h".data, 0x40000000, ValueId.ScaleType.kScaledDpi, true)]

end ValueId

/-! ## `OverrideId` -/

/-- Modelled from the spec: the macro `VISAGE_ASSERT` is defined in
`visage_utils/defines.h`, which is not among the sources. The spec has a failed
assertion stop the program ("asserts/aborts", "a fatal lookup-miss, not a
recoverable error"): the statement yields no continuation, here `none`. -/
def VISAGE_ASSERT (condition : Bool) : Option Unit :=
  if condition then some () else none

/-- The state of the `OverrideId` singleton: the counter starts at `1` and the
map is seeded with `{ 0, "Global" }`. -/
structure OverrideId where
  next_id_ : Nat := 1
  name_map_ : StdMap Nat CppString := StdMap.empty.assign 0 "Global".data

namespace OverrideId

/-- The singleton as first constructed by `instance()`. -/
def fresh : OverrideId := {}

/-- The function `OverrideId::nextId`. -/
def nextId (r : OverrideId) (name : CppString) : Nat × OverrideId :=
  (r.next_id_,
    { next_id_ := (r.next_id_ + 1) % UINT_MOD,
      name_map_ := r.name_map_.assign r.next_id_ name })

/-- The function `OverrideId::name`. -/
def name (r : OverrideId) (value_id : Nat) : CppString × OverrideId :=
  let a := r.name_map_.index value_id
  (a.1, { r with name_map_ := a.2 })

/-- The function `OverrideId::id`: the key of the first entry, in key order,
whose value equals `name`; when there is none, `VISAGE_ASSERT(false)` and then
`return -1`. -/
def id (r : OverrideId) (name : CppString) : Option Nat :=
  match r.name_map_.entries.find? (fun assignment => decide (assignment.2 = name)) with
  | some assignment => some assignment.1
  | none => (VISAGE_ASSERT false).map (fun _ => UINT_MOD - 1)

/-- The function `OverrideId::nameIdMap`. -/
def nameIdMap (r : OverrideId) : StdMap CppString Nat :=
  r.name_map_.entries.foldl
    (fun result assignment => result.assign assignment.2 assignment.1) StdMap.empty

/-- The function `OverrideId::numOverrideIds`. -/
def numOverrideIds (r : OverrideId) : Int := toInt r.next_id_

/-- The registry after `name_map_[k]` has inserted an empty string under the
key `k`. -/
def withDefaultEntry (r : OverrideId) (k : Nat) : OverrideId :=
  { r with name_map_ := r.name_map_.assign k default }

/-- A sequence of `nextId` calls in order; the ids returned and the final state. -/
def registerAll (r : OverrideId) : List CppString → List Nat × OverrideId
  | [] => ([], r)
  | name :: rest =>
    let a := r.nextId name
    let b := registerAll a.2 rest
    (a.1 :: b.1, b.2)

/-- The registry after the overrides "Dark", "Light" and again "Dark" have been
registered on a fresh one, under the ids 1, 2 and 3. -/
def twoDarks : OverrideId :=
  (OverrideId.fresh.registerAll ["Dark".data, "Light".data, "Dark".data]).2

end OverrideId

/-- A registration sequence as long as the range of the 32-bit counter:
`2 ^ 32` registrations of an override `x`. -/
def wrapAroundOverrides : List CppString :=
  List.replicate (UINT_MOD - 1) "x".data ++ ["x".data]

/-- A registration sequence one longer than the range of the 32-bit counter:
`2 ^ 32` registrations of an override `x`, then one of the name "Global". -/
def wrapAroundThenGlobal : List CppString :=
  List.replicate (UINT_MOD - 1) "x".data ++ ["x".data, "Global".data]

/-! ## Call sequences on `OverrideId` -/

namespace OverrideId

/-- One call of the public interface of `OverrideId`. -/
inductive Call where
  | nextId (name : CppString)
  | name (value_id : Nat)
  | id (name : CppString)
  | nameIdMap
  | numOverrideIds

/-- Whether a call is a registration. -/
def Call.isNextId : Call → Bool
  | Call.nextId _ => true
  | _ => false

/-- The registry after one call. `id`, `nameIdMap` and `numOverrideIds` only
read the registry. -/
def perform (r : OverrideId) : Call → OverrideId
  | Call.nextId n => (r.nextId n).2
  | Call.name i => (r.name i).2
  | Call.id _ => r
  | Call.nameIdMap => r
  | Call.numOverrideIds => r

/-- The registry after a sequence of calls, in order. -/
def performAll (r : OverrideId) (calls : List Call) : OverrideId :=
  calls.foldl perform r

end OverrideId

/-! ## What `nameIdMap` is to return -/

/-- The result `m` of `nameIdMap` for a registry in which the name registered
under id `i` is `registered[i]`: the keys of `m` are exactly the registered
names, each name is mapped to the greatest id registered under it, and when the
names are pairwise distinct every id is the value of its own name. -/
def NameIdMapSpec (registered : List CppString) (m : StdMap CppString Nat) : Prop :=
  (∀ n, (∃ i, m.find n = some i) ↔ n ∈ registered) ∧
    (∀ n i, m.find n = some i ↔
      (registered[i]? = some n ∧ ∀ j, registered[j]? = some n → j ≤ i)) ∧
    (registered.Nodup → ∀ i n, registered[i]? = some n → m.find n = some i)

/-- The entry of `nameIdMap()` for the empty name after an accessor has inserted
a value-initialised entry under the key `k`: with `names j` the name stored under
the id `j`, the empty name is a key of `m`, mapped to the greatest id `i` whose
name is empty (so `i >= k`), and `i = k` when no id greater than `k` has an empty
name. -/
def EmptyNameMapped (m : StdMap CppString Nat) (names : Nat → Option CppString)
    (k : Nat) : Prop :=
  ∃ i, m.find [] = some i ∧ names i = some [] ∧ (∀ j, names j = some [] → j ≤ i) ∧
    k ≤ i ∧ ((∀ j, k < j → names j ≠ some []) → i = k)

/-- The result of `OverrideId::id("")` after `name(k)` has inserted an empty
string under the key `k`: with `names j` the name stored under the id `j`, the
call returns the smallest id `i` whose name is empty (so `i <= k`), and `i = k`
when no id smaller than `k` has an empty name. -/
def EmptyNameFound (result : Option Nat) (names : Nat → Option CppString)
    (k : Nat) : Prop :=
  ∃ i, result = some i ∧ names i = some [] ∧ (∀ j, names j = some [] → i ≤ j) ∧
    i ≤ k ∧ ((∀ j, j < k → names j ≠ some []) → i = k)

/-! ## Facts about `std::map` -/

theorem findEntry_insertEntry_self {K V : Type} [LinearOrder K] (l : List (K × V)) (k : K)
    (v : V) : findEntry (insertEntry l k v) k = some v := by
  induction l with
  | nil => simp [insertEntry, findEntry]
  | cons hd tl ih =>
    obtain ⟨k', v'⟩ := hd
    simp only [insertEntry]
    split_ifs with h1 h2
    · simp [findEntry]
    · simp [findEntry]
    · simp only [findEntry, if_neg h2]
      exact ih

theorem findEntry_insertEntry_ne {K V : Type} [LinearOrder K] (l : List (K × V)) (k j : K)
    (v : V) (hj : j ≠ k) : findEntry (insertEntry l k v) j = findEntry l j := by
  induction l with
  | nil => simp [insertEntry, findEntry, hj]
  | cons hd tl ih =>
    obtain ⟨k', v'⟩ := hd
    simp only [insertEntry]
    split_ifs with h1 h2
    · simp [findEntry, hj]
    · subst h2
      simp [findEntry, hj]
    · simp only [findEntry]
      rw [ih]

theorem findEntry_of_mem {K V : Type} [LinearOrder K] (l : List (K × V)) (k : K) (v : V)
    (hl : KeysAscending l) (h : (k, v) ∈ l) : findEntry l k = some v := by
  induction l with
  | nil => exact absurd h (List.not_mem_nil _)
  | cons hd tl ih =>
    obtain ⟨k', v'⟩ := hd
    unfold KeysAscending at hl ih
    rw [List.pairwise_cons] at hl
    rcases List.mem_cons.1 h with h' | h'
    · injection h' with h1 h2
      simp [findEntry, h1, h2]
    · have hlt : k' < k := hl.1 (k, v) h'
      simp only [findEntry, if_neg (ne_of_gt hlt)]
      exact ih hl.2 h'

theorem mem_of_findEntry {K V : Type} [DecidableEq K] (l : List (K × V)) (k : K) (v : V)
    (h : findEntry l k = some v) : (k, v) ∈ l := by
  induction l with
  | nil => simp [findEntry] at h
  | cons hd tl ih =>
    obtain ⟨k', v'⟩ := hd
    simp only [findEntry] at h
    split_ifs at h with h1
    · injection h with h2
      rw [h1, h2]
      exact List.mem_cons_self _ _
    · exact List.mem_cons_of_mem _ (ih h)

theorem StdMap.find_assign_self {K V : Type} [LinearOrder K] (m : StdMap K V) (k : K) (v : V) :
    (m.assign k v).find k = some v :=
  findEntry_insertEntry_self m.entries k v

theorem StdMap.find_assign_ne {K V : Type} [LinearOrder K] (m : StdMap K V) (k j : K) (v : V)
    (hj : j ≠ k) : (m.assign k v).find j = m.find j :=
  findEntry_insertEntry_ne m.entries k j v hj

theorem StdMap.index_of_find {K V : Type} [LinearOrder K] [Inhabited V] (m : StdMap K V)
    (k : K) (v : V) (h : m.find k = some v) : m.index k = (v, m) := by
  simp [StdMap.index, h]

/-! ## Facts about `nameFromPath` -/

theorem lastIndexOf_lt (p : Char → Bool) (l : List Char) (i : Nat)
    (h : lastIndexOf p l = some i) : i < l.length := by
  induction l generalizing i with
  | nil => simp [lastIndexOf] at h
  | cons c cs ih =>
    simp only [lastIndexOf] at h
    cases hcs : lastIndexOf p cs with
    | some j =>
      rw [hcs] at h
      injection h with h'
      have := ih j hcs
      simp only [List.length_cons]
      omega
    | none =>
      rw [hcs] at h
      split_ifs at h
      injection h with h'
      simp only [List.length_cons]
      omega

theorem find_last_of_bound (s chars : CppString) :
    find_last_of s chars = npos ∨ find_last_of s chars < s.length := by
  unfold find_last_of
  cases h : lastIndexOf (fun c => chars.contains c) s with
  | some i => exact Or.inr (lastIndexOf_lt _ _ _ h)
  | none => exact Or.inl rfl

theorem nameFromPath_nonempty (file_path : CppString) (h : file_path ≠ []) :
    ∃ group, nameFromPath file_path = some group := by
  have hlen : 1 ≤ file_path.length := by
    cases file_path with
    | nil => exact absurd rfl h
    | cons c cs => simp
  have hpos : ((if find_last_of file_path "\\/".data = npos then 0
      else find_last_of file_path "\\/".data) + 1) % SIZE_MOD ≤ file_path.length := by
    split_ifs with h1
    · exact le_trans (Nat.mod_le _ _) hlen
    · rcases find_last_of_bound file_path "\\/".data with h2 | h2
      · exact absurd h2 h1
      · exact le_trans (Nat.mod_le _ _) h2
  unfold nameFromPath substr
  simp only
  rw [if_neg (not_lt.2 hpos)]
  exact ⟨_, rfl⟩

/-! ## Registration sequences -/

theorem ColorId.color_nextId_nonempty (r : ColorId) (name file_path : CppString)
    (default_color : Nat)
    (h : file_path ≠ []) :
    ∃ group, nameFromPath file_path = some group ∧
      r.nextId name file_path default_color = some (r.next_id_,
        { next_id_ := (r.next_id_ + 1) % UINT_MOD,
          info_map_ := r.info_map_.assign r.next_id_ ⟨name, group, default_color⟩ }) := by
  obtain ⟨group, hg⟩ := nameFromPath_nonempty file_path h
  exact ⟨group, hg, by simp [ColorId.nextId, hg]⟩

theorem ValueId.value_nextId_nonempty (r : ValueId) (name file_path : CppString)
    (default_value : Nat)
    (scale_type : ValueId.ScaleType) (round_to_pixel : Bool) (h : file_path ≠ []) :
    ∃ group, nameFromPath file_path = some group ∧
      r.nextId name file_path default_value scale_type round_to_pixel = some (r.next_id_,
        { next_id_ := (r.next_id_ + 1) % UINT_MOD,
          info_map_ := r.info_map_.assign r.next_id_
            ⟨name, group, default_value, scale_type, round_to_pixel⟩ }) := by
  obtain ⟨group, hg⟩ := nameFromPath_nonempty file_path h
  exact ⟨group, hg, by simp [ValueId.nextId, hg]⟩

theorem range_step (c n : Nat) (h : c + (n + 1) ≤ UINT_MOD) :
    List.range' ((c + 1) % UINT_MOD) n = List.range' (c + 1) n := by
  rcases Nat.eq_zero_or_pos n with hn | hn
  · subst hn
    rfl
  · rw [Nat.mod_eq_of_lt (by omega)]

theorem ColorId.color_registerAll_ids (regs : List (CppString × CppString × Nat)) (r : ColorId)
    (hpaths : ∀ a ∈ regs, a.2.1 ≠ []) (hN : r.next_id_ + regs.length ≤ UINT_MOD) :
    ∃ r', r.registerAll regs = some (List.range' r.next_id_ regs.length, r') ∧
      r'.next_id_ % UINT_MOD = (r.next_id_ + regs.length) % UINT_MOD := by
  induction regs generalizing r with
  | nil => exact ⟨r, rfl, rfl⟩
  | cons a rest ih =>
    obtain ⟨name, file_path, default_color⟩ := a
    obtain ⟨group, -, hnext⟩ := ColorId.color_nextId_nonempty r name file_path default_color
      (hpaths _ (List.mem_cons_self _ _))
    simp only [List.length_cons] at hN
    have hle : (r.next_id_ + 1) % UINT_MOD + rest.length ≤ UINT_MOD :=
      le_trans (Nat.add_le_add_right (Nat.mod_le _ _) _) (by omega)
    obtain ⟨r', hr', hc⟩ := ih
      { next_id_ := (r.next_id_ + 1) % UINT_MOD,
        info_map_ := r.info_map_.assign r.next_id_ ⟨name, group, default_color⟩ }
      (fun a ha => hpaths a (List.mem_cons_of_mem _ ha)) hle
    refine ⟨r', ?_, ?_⟩
    · simp only [ColorId.registerAll, hnext, hr', List.length_cons, List.range'_succ]
      rw [range_step _ _ hN]
    · rw [hc]
      simp only [List.length_cons, Nat.mod_add_mod, Nat.add_mod_mod]
      congr 1
      omega

theorem ValueId.value_registerAll_ids
    (regs : List (CppString × CppString × Nat × ValueId.ScaleType × Bool)) (r : ValueId)
    (hpaths : ∀ a ∈ regs, a.2.1 ≠ [])
    (hN : r.next_id_ + regs.length ≤ UINT_MOD) :
    ∃ r', r.registerAll regs = some (List.range' r.next_id_ regs.length, r') ∧
      r'.next_id_ % UINT_MOD = (r.next_id_ + regs.length) % UINT_MOD := by
  induction regs generalizing r with
  | nil => exact ⟨r, rfl, rfl⟩
  | cons a rest ih =>
    obtain ⟨name, file_path, default_value, scale_type, round_to_pixel⟩ := a
    obtain ⟨group, -, hnext⟩ := ValueId.value_nextId_nonempty r name file_path default_value
      scale_type round_to_pixel (hpaths _ (List.mem_cons_self _ _))
    simp only [List.length_cons] at hN
    have hle : (r.next_id_ + 1) % UINT_MOD + rest.length ≤ UINT_MOD :=
      le_trans (Nat.add_le_add_right (Nat.mod_le _ _) _) (by omega)
    obtain ⟨r', hr', hc⟩ := ih
      { next_id_ := (r.next_id_ + 1) % UINT_MOD,
        info_map_ := r.info_map_.assign r.next_id_ 
          ⟨name, group, default_value, scale_type, round_to_pixel⟩ }
      (fun a ha => hpaths a (List.mem_cons_of_mem _ ha)) hle
    refine ⟨r', ?_, ?_⟩
    · simp only [ValueId.registerAll, hnext, hr', List.length_cons, List.range'_succ]
      rw [range_step _ _ hN]
    · rw [hc]
      simp only [List.length_cons, Nat.mod_add_mod, Nat.add_mod_mod]
      congr 1
      omega

theorem OverrideId.override_registerAll_ids (names : List CppString) (r : OverrideId)
    (hN : r.next_id_ + names.length ≤ UINT_MOD) :
    (r.registerAll names).1 = List.range' r.next_id_ names.length := by
  induction names generalizing r with
  | nil => rfl
  | cons a rest ih =>
    simp only [List.length_cons] at hN
    have h := ih (r.nextId a).2
      (le_trans (Nat.add_le_add_right (Nat.mod_le _ _) _) (by omega))
    simp only [OverrideId.registerAll, List.length_cons, List.range'_succ, h]
    simp only [OverrideId.nextId]
    rw [range_step _ _ hN]

/-- C1: on a fresh registry, a sequence of `N` calls of `nextId` with `N` below
the limit of the 32-bit counter (and non-empty file paths for `ColorId` and
`ValueId`) succeeds and returns, in call order, the ids `0, 1, …, N - 1` for
`ColorId` and `ValueId` and `1, 2, …, N` for `OverrideId`: the `k`-th call
returns `base + k`. -/
theorem nextId_issues_consecutive_ids
    (colors : List (CppString × CppString × Nat))
    (values : List (CppString × CppString × Nat × ValueId.ScaleType × Bool))
    (names : List CppString)
    (hc : colors.length < UINT_MOD) (hcp : ∀ a ∈ colors, a.2.1 ≠ [])
    (hv : values.length < UINT_MOD) (hvp : ∀ a ∈ values, a.2.1 ≠ [])
    (hn : names.length < UINT_MOD) :
    (ColorId.fresh.registerAll colors).map (fun a => a.1)
        = some ((List.range colors.length).map (fun k => 0 + k)) ∧
      (ValueId.fresh.registerAll values).map (fun a => a.1)
        = some ((List.range values.length).map (fun k => 0 + k)) ∧
      (OverrideId.fresh.registerAll names).1
        = (List.range names.length).map (fun k => 1 + k) := by
  refine ⟨?_, ?_, ?_⟩
  · obtain ⟨r', h, -⟩ := ColorId.color_registerAll_ids colors ColorId.fresh hcp
      (by simp only [ColorId.fresh]; omega)
    rw [h]
    simp [ColorId.fresh, List.range_eq_range']
  · obtain ⟨r', h, -⟩ := ValueId.value_registerAll_ids values ValueId.fresh hvp
      (by simp only [ValueId.fresh]; omega)
    rw [h]
    simp [ValueId.fresh, List.range_eq_range']
  · rw [OverrideId.override_registerAll_ids names OverrideId.fresh
      (by simp only [OverrideId.fresh]; omega)]
    simp only [OverrideId.fresh]
    rw [List.range_eq_range', List.map_add_range']

/-- C1 at a concrete input: two colours, two values and two overrides. -/
theorem nextId_issues_consecutive_ids_witness :
    (ColorId.fresh.registerAll
        [("Red".data, "colors/Red.h".data, 0xFFFF0000),
         ("Blue".data, "colors/Blue.h".data, 0xFF0000FF)]).map (fun a => a.1) = some [0, 1] ∧
      (ValueId.fresh.registerAll
        [("Width".data, "ui/Knob.cpp".data, 0x41200000, ValueId.ScaleType.kScaledDpi, true),
         ("Ratio".data, "ui/Knob.cpp".data, 0x3F000000, ValueId.ScaleType.kConstant, false)]).map
          (fun a => a.1) = some [0, 1] ∧
      (OverrideId.fresh.registerAll ["Dark".data, "Light".data]).1 = [1, 2] :=
  nextId_issues_consecutive_ids
    [("Red".data, "colors/Red.h".data, 0xFFFF0000),
     ("Blue".data, "colors/Blue.h".data, 0xFF0000FF)]
    [("Width".data, "ui/Knob.cpp".data, 0x41200000, ValueId.ScaleType.kScaledDpi, true),
     ("Ratio".data, "ui/Knob.cpp".data, 0x3F000000, ValueId.ScaleType.kConstant, false)]
    ["Dark".data, "Light".data]
    (by decide) (by decide) (by decide) (by decide) (by decide)

theorem counter_step (c n : Nat) (h : c + (n + 1) ≤ UINT_MOD) :
    (c + 1) % UINT_MOD = c + 1 ∨ ((c + 1) % UINT_MOD = 0 ∧ n = 0) := by
  rcases Nat.lt_or_ge (c + 1) UINT_MOD with h1 | h1
  · exact Or.inl (Nat.mod_eq_of_lt h1)
  · have h2 : c + 1 = UINT_MOD := by omega
    refine Or.inr ⟨?_, by omega⟩
    rw [h2, Nat.mod_self]

theorem ColorId.color_name_of_find (r : ColorId) (k : Nat) (e : ColorId.ColorIdInfo)
    (h : r.info_map_.find k = some e) :
    r.name k = (e.name, r) ∧ r.groupName k = (e.group, r) ∧
      r.defaultColor k = (e.default_color, r) := by
  simp [ColorId.name, ColorId.groupName, ColorId.defaultColor, StdMap.index_of_find _ _ _ h]

theorem ColorId.color_registerAll_entries (regs : List (CppString × CppString × Nat))
    (r : ColorId)
    (hpaths : ∀ a ∈ regs, a.2.1 ≠ []) (hN : r.next_id_ + regs.length ≤ UINT_MOD) :
    ∃ ids r', r.registerAll regs = some (ids, r') ∧
      (∀ j, j < r.next_id_ ∨ r.next_id_ + regs.length ≤ j →
        r'.info_map_.find j = r.info_map_.find j) ∧
      (∀ k a, regs[k]? = some a → ∃ group, nameFromPath a.2.1 = some group ∧
        r'.info_map_.find (r.next_id_ + k) = some ⟨a.1, group, a.2.2⟩) := by
  induction regs generalizing r with
  | nil =>
    refine ⟨[], r, rfl, fun _ _ => rfl, ?_⟩
    intro k a h
    simp at h
  | cons a rest ih =>
    obtain ⟨name, file_path, default_color⟩ := a
    obtain ⟨group, hgroup, hnext⟩ := ColorId.color_nextId_nonempty r name file_path
      default_color (hpaths _ (List.mem_cons_self _ _))
    simp only [List.length_cons] at hN
    have hstep := counter_step _ _ hN
    have hle : (r.next_id_ + 1) % UINT_MOD + rest.length ≤ UINT_MOD :=
      le_trans (Nat.add_le_add_right (Nat.mod_le _ _) _) (by omega)
    obtain ⟨ids, r', hr', hout, hin⟩ := ih
      { next_id_ := (r.next_id_ + 1) % UINT_MOD,
        info_map_ := r.info_map_.assign r.next_id_ ⟨name, group, default_color⟩ }
      (fun a ha => hpaths a (List.mem_cons_of_mem _ ha)) hle
    simp only at hout hin
    refine ⟨r.next_id_ :: ids, r', ?_, ?_, ?_⟩
    · simp only [ColorId.registerAll, hnext, hr']
    · intro j hj
      simp only [List.length_cons] at hj
      rw [hout j (by omega), StdMap.find_assign_ne _ _ _ _ (by omega)]
    · intro k b hb
      cases k with
      | zero =>
        simp only [List.getElem?_cons_zero, Option.some.injEq] at hb
        subst hb
        refine ⟨group, hgroup, ?_⟩
        rw [hout _ (by omega)]
        exact StdMap.find_assign_self _ _ _
      | succ k =>
        simp only [List.getElem?_cons_succ] at hb
        have hk : k < rest.length := by
          rcases Nat.lt_or_ge k rest.length with h | h
          · exact h
          · rw [List.getElem?_eq_none h] at hb
            exact absurd hb (by simp)
        obtain ⟨g, hg, hfind⟩ := hin k b hb
        refine ⟨g, hg, ?_⟩
        have hc : (r.next_id_ + 1) % UINT_MOD = r.next_id_ + 1 := by omega
        rw [hc] at hfind
        rw [← hfind]
        congr 1
        omega

/-- C2 (amended): for every sequence of at most `2 ^ 32` calls of
`ColorId::nextId` with non-empty paths on a fresh registry, all calls succeed
and afterwards, for the `k`-th registration `(name, path, color)`,
`name(k) == name`, `groupName(k) == nameFromPath(path)` and
`defaultColor(k) == color`. -/
theorem ColorId.entries_after_registrations (regs : List (CppString × CppString × Nat))
    (hN : regs.length ≤ UINT_MOD) (hpaths : ∀ a ∈ regs, a.2.1 ≠ []) :
    ∃ ids r, ColorId.fresh.registerAll regs = some (ids, r) ∧
      ∀ k a, regs[k]? = some a →
        (r.name k).1 = a.1 ∧ some (r.groupName k).1 = nameFromPath a.2.1 ∧
          (r.defaultColor k).1 = a.2.2 := by
  obtain ⟨ids, r, hr, -, hin⟩ := ColorId.color_registerAll_entries regs ColorId.fresh hpaths
    (by simp only [ColorId.fresh]; omega)
  refine ⟨ids, r, hr, ?_⟩
  intro k a ha
  obtain ⟨group, hg, hfind⟩ := hin k a ha
  simp only [ColorId.fresh, Nat.zero_add] at hfind
  obtain ⟨h1, h2, h3⟩ := ColorId.color_name_of_find r k _ hfind
  rw [h1, h2, h3, hg]
  exact ⟨rfl, rfl, rfl⟩

/-- C2 at the scenario of the spec: "Red" then "Blue". -/
theorem ColorId.entries_after_registrations_witness :
    (∃ ids r, ColorId.fresh.registerAll
        [("Red".data, "colors/Red.h".data, 0xFFFF0000),
         ("Blue".data, "colors/Blue.h".data, 0xFF0000FF)] = some (ids, r) ∧
      ∀ k a, [("Red".data, "colors/Red.h".data, 0xFFFF0000),
          ("Blue".data, "colors/Blue.h".data, 0xFF0000FF)][k]? = some a →
        (r.name k).1 = a.1 ∧ some (r.groupName k).1 = nameFromPath a.2.1 ∧
          (r.defaultColor k).1 = a.2.2) ∧
      (ColorId.fresh.registerAll
        [("Red".data, "colors/Red.h".data, 0xFFFF0000),
         ("Blue".data, "colors/Blue.h".data, 0xFF0000FF)]).map
          (fun a => (a.1, (a.2.groupName 0).1, (a.2.defaultColor 1).1))
        = some ([0, 1], "Red".data, 0xFF0000FF) :=
  ⟨ColorId.entries_after_registrations
      [("Red".data, "colors/Red.h".data, 0xFFFF0000),
       ("Blue".data, "colors/Blue.h".data, 0xFF0000FF)] (by decide) (by decide),
    by decide⟩

theorem ColorId.registerAll_append (l1 l2 : List (CppString × CppString × Nat))
    (r r1 : ColorId) (ids1 : List Nat) (h1 : r.registerAll l1 = some (ids1, r1)) :
    r.registerAll (l1 ++ l2) = (r1.registerAll l2).map (fun q => (ids1 ++ q.1, q.2)) := by
  induction l1 generalizing r ids1 with
  | nil =>
    simp only [ColorId.registerAll, Option.some.injEq, Prod.mk.injEq] at h1
    obtain ⟨h2, h3⟩ := h1
    subst h2 h3
    cases h : r.registerAll l2 <;> simp [h]
  | cons a rest ih =>
    obtain ⟨name, file_path, default_color⟩ := a
    rw [List.cons_append]
    simp only [ColorId.registerAll] at h1 ⊢
    cases hn : r.nextId name file_path default_color with
    | none => simp [hn] at h1
    | some p =>
      obtain ⟨i, r'⟩ := p
      simp only [hn] at h1 ⊢
      cases hr : r'.registerAll rest with
      | none => simp [hr] at h1
      | some q =>
        obtain ⟨ids, r''⟩ := q
        simp only [hr, Option.some.injEq, Prod.mk.injEq] at h1
        obtain ⟨h2, h3⟩ := h1
        subst h2 h3
        rw [ih r' ids hr]
        cases h : r''.registerAll l2 <;> simp [h]

theorem ColorId.registerAll_counter_lt (regs : List (CppString × CppString × Nat))
    (r r' : ColorId) (ids : List Nat) (hr : r.next_id_ < UINT_MOD)
    (h : r.registerAll regs = some (ids, r')) : r'.next_id_ < UINT_MOD := by
  induction regs generalizing r r' ids with
  | nil =>
    simp only [ColorId.registerAll, Option.some.injEq, Prod.mk.injEq] at h
    rw [← h.2]
    exact hr
  | cons a rest ih =>
    obtain ⟨name, file_path, default_color⟩ := a
    simp only [ColorId.registerAll] at h
    cases hn : r.nextId name file_path default_color with
    | none => simp [hn] at h
    | some p =>
      obtain ⟨i, r1⟩ := p
      simp only [hn] at h
      cases hq : r1.registerAll rest with
      | none => simp [hq] at h
      | some q =>
        obtain ⟨ids', r''⟩ := q
        simp only [hq, Option.some.injEq, Prod.mk.injEq] at h
        rw [← h.2]
        refine ih r1 r'' ids' ?_ hq
        simp only [ColorId.nextId] at hn
        cases hg : nameFromPath file_path with
        | none => simp [hg] at hn
        | some g =>
          simp only [hg, Option.some.injEq, Prod.mk.injEq] at hn
          rw [← hn.2]
          exact Nat.mod_lt _ (by decide)

theorem ColorId.counter_after (regs : List (CppString × CppString × Nat))
    (hlen : regs.length ≤ UINT_MOD) (hpaths : ∀ a ∈ regs, a.2.1 ≠ []) :
    ∃ ids r1, ColorId.fresh.registerAll regs = some (ids, r1) ∧
      r1.next_id_ = regs.length % UINT_MOD := by
  have hpos : 0 < UINT_MOD := by decide
  obtain ⟨r1, h1, hc⟩ := ColorId.color_registerAll_ids regs ColorId.fresh hpaths
    (by simp only [ColorId.fresh]; omega)
  have hlt := ColorId.registerAll_counter_lt _ _ _ _ hpos h1
  rw [Nat.mod_eq_of_lt hlt] at hc
  refine ⟨_, r1, h1, ?_⟩
  rw [hc]
  simp [ColorId.fresh]

theorem ColorId.counter_wraps (regs : List (CppString × CppString × Nat))
    (hlen : regs.length = UINT_MOD) (hpaths : ∀ a ∈ regs, a.2.1 ≠ []) :
    ∃ ids r1, ColorId.fresh.registerAll regs = some (ids, r1) ∧ r1.next_id_ = 0 := by
  obtain ⟨ids, r1, h1, hc⟩ := ColorId.counter_after regs (le_of_eq hlen) hpaths
  refine ⟨ids, r1, h1, ?_⟩
  rw [hc, hlen, Nat.mod_self]

/-- C2 fails as stated: after the `2 ^ 32 + 1` registrations of
`wrapAroundColors` (all with non-empty paths), whose first one carries the name
`a`, the counter has wrapped and `name(0)` is `b`, the name of the last one. -/
theorem ColorId.entry_overwritten_after_wraparound :
    (∀ a ∈ ColorId.wrapAroundColors, a.2.1 ≠ []) ∧
      ColorId.wrapAroundColors[0]? = some ("a".data, "d/a.h".data, 0) ∧
      ∃ ids r, ColorId.fresh.registerAll ColorId.wrapAroundColors = some (ids, r) ∧
        (r.name 0).1 = "b".data ∧ (r.name 0).1 ≠ "a".data := by
  have hpaths : ∀ a ∈ List.replicate UINT_MOD ("a".data, "d/a.h".data, 0), a.2.1 ≠ [] := by
    intro a ha
    rw [List.eq_of_mem_replicate ha]
    decide
  have hpos : 0 < UINT_MOD := by decide
  refine ⟨?_, ?_, ?_⟩
  · intro a ha
    rcases List.mem_append.1 ha with h | h
    · exact hpaths a h
    · rw [List.mem_singleton.1 h]
      decide
  · have hlen : 0 < (List.replicate UINT_MOD ("a".data, "d/a.h".data, (0 : Nat))).length :=
      lt_of_lt_of_eq hpos (List.length_replicate _ _).symm
    exact (List.getElem?_append_left hlen).trans
      ((List.getElem?_replicate).trans (if_pos hpos))
  · obtain ⟨ids1, r1, h1, hzero⟩ := ColorId.counter_wraps _ (List.length_replicate _ _) hpaths
    obtain ⟨group, hg, hnext⟩ := ColorId.color_nextId_nonempty r1 "b".data "d/b.h".data 1
      (by decide)
    have hlast : r1.registerAll [("b".data, "d/b.h".data, 1)] = some ([r1.next_id_],
        { next_id_ := (r1.next_id_ + 1) % UINT_MOD,
          info_map_ := r1.info_map_.assign r1.next_id_ ⟨"b".data, group, 1⟩ }) := by
      simp only [ColorId.registerAll, hnext]
    refine ⟨_, _, (ColorId.registerAll_append _ _ _ _ _ h1).trans
      (congrArg (Option.map _) hlast), ?_⟩
    have hfind := StdMap.find_assign_self r1.info_map_ r1.next_id_
      (⟨"b".data, group, 1⟩ : ColorId.ColorIdInfo)
    have hname := (ColorId.color_name_of_find
      { next_id_ := (r1.next_id_ + 1) % UINT_MOD,
        info_map_ := r1.info_map_.assign r1.next_id_ ⟨"b".data, group, 1⟩ } 0 _
      (by rw [hzero] at hfind; rw [hzero]; exact hfind)).1
    simp only [Option.map_some']
    rw [hname]
    show "b".data = "b".data ∧ "b".data ≠ "a".data
    exact ⟨rfl, by decide⟩

/-! ## The reserved override id `0` -/

theorem OverrideId.override_name_of_find (r : OverrideId) (k : Nat) (n : CppString)
    (h : r.name_map_.find k = some n) : r.name k = (n, r) := by
  simp [OverrideId.name, StdMap.index_of_find _ _ _ h]

theorem OverrideId.perform_keeps_global (r : OverrideId) (c : OverrideId.Call)
    (hfind : r.name_map_.find 0 = some "Global".data)
    (hc : 1 ≤ r.next_id_) :
    (r.perform c).name_map_.find 0 = some "Global".data := by
  cases c with
  | nextId n =>
    simp only [OverrideId.perform, OverrideId.nextId]
    rw [StdMap.find_assign_ne _ _ _ _ (by omega)]
    exact hfind
  | name i =>
    simp only [OverrideId.perform, OverrideId.name, StdMap.index]
    cases hi : r.name_map_.find i with
    | some v => exact hfind
    | none =>
      simp only
      have h0 : (0 : Nat) ≠ i := by
        intro h
        rw [← h, hfind] at hi
        exact absurd hi (by simp)
      rw [StdMap.find_assign_ne _ _ _ _ h0]
      exact hfind
  | id n => exact hfind
  | nameIdMap => exact hfind
  | numOverrideIds => exact hfind

theorem OverrideId.performAll_keeps_global (calls : List OverrideId.Call) (r : OverrideId)
    (hfind : r.name_map_.find 0 = some "Global".data) (hc : 1 ≤ r.next_id_)
    (hN : r.next_id_ + (calls.filter OverrideId.Call.isNextId).length < UINT_MOD) :
    (r.performAll calls).name_map_.find 0 = some "Global".data := by
  induction calls generalizing r with
  | nil => exact hfind
  | cons c rest ih =>
    have hstep := OverrideId.perform_keeps_global r c hfind hc
    simp only [OverrideId.performAll, List.foldl_cons]
    cases c with
    | nextId n =>
      simp only [List.filter_cons, OverrideId.Call.isNextId, if_true, List.length_cons] at hN
      have hmod : (r.next_id_ + 1) % UINT_MOD = r.next_id_ + 1 := Nat.mod_eq_of_lt (by omega)
      refine ih (r.perform (OverrideId.Call.nextId n)) hstep ?_ ?_
      · simp only [OverrideId.perform, OverrideId.nextId, hmod]
        omega
      · simp only [OverrideId.perform, OverrideId.nextId, hmod]
        omega
    | name i =>
      simp only [List.filter_cons, OverrideId.Call.isNextId] at hN
      refine ih (r.perform (OverrideId.Call.name i)) hstep ?_ ?_
      · simpa [OverrideId.perform, OverrideId.name] using hc
      · simpa [OverrideId.perform, OverrideId.name] using hN
    | id n =>
      simp only [List.filter_cons, OverrideId.Call.isNextId] at hN
      exact ih r hfind hc (by simpa using hN)
    | nameIdMap =>
      simp only [List.filter_cons, OverrideId.Call.isNextId] at hN
      exact ih r hfind hc (by simpa using hN)
    | numOverrideIds =>
      simp only [List.filter_cons, OverrideId.Call.isNextId] at hN
      exact ih r hfind hc (by simpa using hN)

/-- C3: in the `OverrideId` registry `name(0) == "Global"` on a fresh registry,
and it still holds after every finite sequence of calls of `nextId`, `name`,
`id`, `nameIdMap` and `numOverrideIds` in any order, as long as fewer than
`2 ^ 32 - 1` of them are calls of `nextId`. -/
theorem OverrideId.global_is_reserved (calls : List OverrideId.Call)
    (hN : (calls.filter OverrideId.Call.isNextId).length < UINT_MOD - 1) :
    (OverrideId.fresh.name 0).1 = "Global".data ∧
      ((OverrideId.fresh.performAll calls).name 0).1 = "Global".data := by
  have hfresh : OverrideId.fresh.name_map_.find 0 = some "Global".data := by decide
  refine ⟨by decide, ?_⟩
  have h := OverrideId.performAll_keeps_global calls OverrideId.fresh hfresh
    (by simp [OverrideId.fresh]) (by simp only [OverrideId.fresh]; omega)
  rw [OverrideId.override_name_of_find _ _ _ h]

/-- C3 at a concrete input: registrations (one of them named "Global"),
lookups of issued and of un-issued ids, and the other queries. -/
theorem OverrideId.global_is_reserved_witness :
    (OverrideId.fresh.name 0).1 = "Global".data ∧
      ((OverrideId.fresh.performAll
        [OverrideId.Call.name 7, OverrideId.Call.nextId "Dark".data,
         OverrideId.Call.id "Dark".data, OverrideId.Call.nextId "Global".data,
         OverrideId.Call.nameIdMap, OverrideId.Call.name 1,
         OverrideId.Call.numOverrideIds, OverrideId.Call.id "Missing".data]).name 0).1
        = "Global".data :=
  OverrideId.global_is_reserved
    [OverrideId.Call.name 7, OverrideId.Call.nextId "Dark".data,
     OverrideId.Call.id "Dark".data, OverrideId.Call.nextId "Global".data,
     OverrideId.Call.nameIdMap, OverrideId.Call.name 1,
     OverrideId.Call.numOverrideIds, OverrideId.Call.id "Missing".data]
    (by decide)

/-! ## `OverrideId::id` -/

/-- C4: for every state of the `OverrideId` registry and every string `n`,
`id(n)` reaches `VISAGE_ASSERT(false)` exactly when no entry has the name `n`,
and every id it returns has the name `n`. On a fresh registry `nextId("Dark")`
returns `1`, and then `id("Global") == 0`, `id("Dark") == 1` and
`id("Nonexistent")` reaches the assertion. -/
theorem OverrideId.id_miss_iff_no_entry (r : OverrideId) (n : CppString) :
    (r.id n = none ↔ ∀ e ∈ r.name_map_.entries, e.2 ≠ n) ∧
      (∀ i, r.id n = some i → r.name i = (n, r)) ∧
      (OverrideId.fresh.nextId "Dark".data).1 = 1 ∧
      (OverrideId.fresh.nextId "Dark".data).2.id "Global".data = some 0 ∧
      (OverrideId.fresh.nextId "Dark".data).2.id "Dark".data = some 1 ∧
      (OverrideId.fresh.nextId "Dark".data).2.id "Nonexistent".data = none := by
  refine ⟨?_, ?_, by decide, by decide, by decide, by decide⟩
  · unfold OverrideId.id
    cases hfind : r.name_map_.entries.find? (fun assignment => decide (assignment.2 = n)) with
    | none =>
      simp only [List.find?_eq_none, decide_eq_true_eq] at hfind
      exact ⟨fun _ => hfind, fun _ => rfl⟩
    | some e =>
      have hmem := List.mem_of_find?_eq_some hfind
      have hname := List.find?_some hfind
      simp only [decide_eq_true_eq] at hname
      exact ⟨fun h => absurd h (by simp), fun h => absurd hname (h e hmem)⟩
  · intro i hi
    unfold OverrideId.id at hi
    cases hfind : r.name_map_.entries.find? (fun assignment => decide (assignment.2 = n)) with
    | none =>
      rw [hfind] at hi
      exact absurd hi (by simp [VISAGE_ASSERT])
    | some e =>
      rw [hfind] at hi
      have hmem := List.mem_of_find?_eq_some hfind
      have hname := List.find?_some hfind
      simp only [decide_eq_true_eq] at hname
      obtain ⟨k, v⟩ := e
      simp only [Option.some.injEq] at hi
      simp only at hname
      subst hi hname
      exact OverrideId.override_name_of_find r k v
        (findEntry_of_mem _ _ _ r.name_map_.ordered hmem)

/-! ## `name` followed by `id` -/

theorem insertEntry_values_nodup {K V : Type} [LinearOrder K] (l : List (K × V)) (k : K)
    (v : V) (hl : (l.map Prod.snd).Nodup) (hv : v ∉ l.map Prod.snd) :
    ((insertEntry l k v).map Prod.snd).Nodup := by
  induction l with
  | nil => simp [insertEntry]
  | cons hd tl ih =>
    obtain ⟨k', v'⟩ := hd
    simp only [List.map_cons, List.nodup_cons, List.mem_cons, not_or] at hl hv
    simp only [insertEntry]
    split_ifs with h1 h2
    · simp only [List.map_cons, List.nodup_cons, List.mem_cons, not_or]
      exact ⟨⟨hv.1, hv.2⟩, hl.1, hl.2⟩
    · simp only [List.map_cons, List.nodup_cons]
      exact ⟨hv.2, hl.2⟩
    · simp only [List.map_cons, List.nodup_cons]
      refine ⟨?_, ih hl.2 hv.2⟩
      intro hmem
      obtain ⟨e, he, hev⟩ := List.mem_map.1 hmem
      rcases mem_insertEntry tl k v e he with h | h
      · rw [h] at hev
        exact hv.1 hev
      · exact hl.1 (hev ▸ List.mem_map_of_mem Prod.snd h)

theorem find_of_values_nodup {K V : Type} [DecidableEq V] (l : List (K × V)) (e : K × V)
    (hl : (l.map Prod.snd).Nodup) (he : e ∈ l) :
    l.find? (fun a => decide (a.2 = e.2)) = some e := by
  induction l with
  | nil => exact absurd he (List.not_mem_nil _)
  | cons hd tl ih =>
    simp only [List.map_cons, List.nodup_cons] at hl
    rcases List.mem_cons.1 he with h | h
    · subst h
      simp [List.find?_cons]
    · have hne : hd.2 ≠ e.2 := by
        intro heq
        exact hl.1 (heq ▸ List.mem_map_of_mem Prod.snd h)
      simp only [List.find?_cons, decide_eq_false hne]
      exact ih hl.2 h

theorem OverrideId.registerAll_invariant (names : List CppString) (r : OverrideId)
    (hnd : (r.name_map_.entries.map Prod.snd).Nodup) (hnames : names.Nodup)
    (hnew : ∀ n ∈ names, n ∉ r.name_map_.entries.map Prod.snd)
    (hkeys : ∀ i, i < r.next_id_ → ∃ v, r.name_map_.find i = some v) :
    ((r.registerAll names).2.name_map_.entries.map Prod.snd).Nodup ∧
      (∀ i, i < (r.registerAll names).2.next_id_ →
        ∃ v, (r.registerAll names).2.name_map_.find i = some v) := by
  induction names generalizing r with
  | nil => exact ⟨hnd, hkeys⟩
  | cons a rest ih =>
    simp only [OverrideId.registerAll]
    rw [List.nodup_cons] at hnames
    refine ih (r.nextId a).2 ?_ hnames.2 ?_ ?_
    · exact insertEntry_values_nodup _ _ _ hnd (hnew a (List.mem_cons_self _ _))
    · intro n hn hmem
      obtain ⟨e, he, hen⟩ := List.mem_map.1 hmem
      rcases mem_insertEntry _ _ _ e he with h | h
      · rw [h] at hen
        have hen' : a = n := hen
        exact hnames.1 (hen' ▸ hn)
      · exact hnew n (List.mem_cons_of_mem _ hn) (hen ▸ List.mem_map_of_mem Prod.snd h)
    · intro i hi
      simp only [OverrideId.nextId] at hi ⊢
      have hi' : i ≤ r.next_id_ :=
        Nat.lt_succ_iff.1 (lt_of_lt_of_le hi (Nat.mod_le _ _))
      rcases Nat.lt_or_eq_of_le hi' with h | h
      · rw [StdMap.find_assign_ne _ _ _ _ (Nat.ne_of_lt h)]
        exact hkeys i h
      · rw [h]
        exact ⟨a, StdMap.find_assign_self _ _ _⟩

theorem toInt_lt (i c : Nat) (h : (i : Int) < toInt c) : i < c := by
  unfold toInt at h
  split_ifs at h with h1
  · exact Int.ofNat_lt.1 h
  · omega

/-- C5: for every `OverrideId` registry built from a fresh one by calls of
`nextId` whose names are pairwise distinct and all different from "Global",
and for every id `i` with `0 <= i < numOverrideIds()`, the call `name(i)` leaves
the registry as it is and `id(name(i)) == i`. -/
theorem OverrideId.id_of_name (names : List CppString)
    (hnames : ("Global".data :: names).Nodup) (i : Nat)
    (hi : (i : Int) < (OverrideId.fresh.registerAll names).2.numOverrideIds) :
    ((OverrideId.fresh.registerAll names).2.name i).2 = (OverrideId.fresh.registerAll names).2 ∧
      ((OverrideId.fresh.registerAll names).2.name i).2.id
        ((OverrideId.fresh.registerAll names).2.name i).1 = some i := by
  rw [List.nodup_cons] at hnames
  obtain ⟨hnd, hkeys⟩ := OverrideId.registerAll_invariant names OverrideId.fresh
    (by decide) hnames.2
    (by
      intro n hn hmem
      have hg : n = "Global".data := by
        simpa [OverrideId.fresh, StdMap.assign, StdMap.empty, insertEntry] using hmem
      exact hnames.1 (hg ▸ hn))
    (by
      intro i hi
      have h0 : i = 0 := by
        simp only [OverrideId.fresh] at hi
        omega
      subst h0
      exact ⟨"Global".data, by decide⟩)
  obtain ⟨v, hv⟩ := hkeys i (toInt_lt _ _ hi)
  rw [OverrideId.override_name_of_find _ _ _ hv]
  refine ⟨rfl, ?_⟩
  simp only [OverrideId.id]
  rw [find_of_values_nodup _ (i, v) hnd (mem_of_findEntry _ _ _ hv)]

/-- C5 at a concrete input: two overrides, the id `2`. -/
theorem OverrideId.id_of_name_witness :
    ((OverrideId.fresh.registerAll ["Dark".data, "Light".data]).2.name 2).2
        = (OverrideId.fresh.registerAll ["Dark".data, "Light".data]).2 ∧
      ((OverrideId.fresh.registerAll ["Dark".data, "Light".data]).2.name 2).2.id
        ((OverrideId.fresh.registerAll ["Dark".data, "Light".data]).2.name 2).1 = some 2 :=
  OverrideId.id_of_name ["Dark".data, "Light".data] (by decide) 2 (by decide)

/-! ## `nameIdMap` -/

theorem nameIds_fold {V : Type} (f : V → CppString) (l : List (Nat × V))
    (hl : KeysAscending l) (n : CppString) (i : Nat) :
    (l.foldl (fun (result : StdMap CppString Nat) a => result.assign (f a.2) a.1)
        StdMap.empty).find n = some i ↔
      ((∃ v, (i, v) ∈ l ∧ f v = n) ∧ ∀ j v, (j, v) ∈ l → f v = n → j ≤ i) := by
  induction l using List.reverseRecOn generalizing i with
  | nil => simp [StdMap.find, StdMap.empty, findEntry]
  | append_singleton l a ih =>
    obtain ⟨k, w⟩ := a
    unfold KeysAscending at hl
    rw [List.pairwise_append] at hl
    obtain ⟨hl1, -, hl2⟩ := hl
    have hlt : ∀ j v, (j, v) ∈ l → j < k := fun j v h => hl2 (j, v) h (k, w) (by simp)
    rw [List.foldl_append, List.foldl_cons, List.foldl_nil]
    by_cases hn : n = f w
    · subst hn
      rw [StdMap.find_assign_self]
      constructor
      · intro h
        injection h with h
        subst h
        refine ⟨⟨w, by simp, rfl⟩, ?_⟩
        intro j v hj _
        rcases List.mem_append.1 hj with h | h
        · exact le_of_lt (hlt j v h)
        · simp only [List.mem_singleton, Prod.mk.injEq] at h
          exact le_of_eq h.1
      · rintro ⟨⟨v, hv, -⟩, hmax⟩
        have hle : k ≤ i := hmax k w (by simp) rfl
        rcases List.mem_append.1 hv with h | h
        · exact absurd (hlt i v h) (not_lt.2 hle)
        · simp only [List.mem_singleton, Prod.mk.injEq] at h
          rw [h.1]
    · rw [StdMap.find_assign_ne _ _ _ _ hn, ih hl1]
      constructor
      · rintro ⟨⟨v, hv, hfv⟩, hmax⟩
        refine ⟨⟨v, List.mem_append_left _ hv, hfv⟩, ?_⟩
        intro j u hj hfu
        rcases List.mem_append.1 hj with h | h
        · exact hmax j u h hfu
        · simp only [List.mem_singleton, Prod.mk.injEq] at h
          rw [h.2] at hfu
          exact absurd hfu.symm hn
      · rintro ⟨⟨v, hv, hfv⟩, hmax⟩
        refine ⟨⟨v, ?_, hfv⟩, fun j u hj hfu => hmax j u (List.mem_append_left _ hj) hfu⟩
        rcases List.mem_append.1 hv with h | h
        · exact h
        · simp only [List.mem_singleton, Prod.mk.injEq] at h
          rw [h.2] at hfv
          exact absurd hfv.symm hn

theorem nameIds_fold_key {V : Type} (f : V → CppString) (l : List (Nat × V))
    (n : CppString) :
    (∃ i, (l.foldl (fun (result : StdMap CppString Nat) a => result.assign (f a.2) a.1)
        StdMap.empty).find n = some i) ↔ ∃ e ∈ l, f e.2 = n := by
  induction l using List.reverseRecOn with
  | nil => simp [StdMap.find, StdMap.empty, findEntry]
  | append_singleton l a ih =>
    rw [List.foldl_append, List.foldl_cons, List.foldl_nil]
    by_cases hn : n = f a.2
    · subst hn
      rw [StdMap.find_assign_self]
      exact ⟨fun _ => ⟨a, by simp, rfl⟩, fun _ => ⟨a.1, rfl⟩⟩
    · rw [StdMap.find_assign_ne _ _ _ _ hn, ih]
      constructor
      · rintro ⟨e, he, hfe⟩
        exact ⟨e, List.mem_append_left _ he, hfe⟩
      · rintro ⟨e, he, hfe⟩
        rcases List.mem_append.1 he with h | h
        · exact ⟨e, h, hfe⟩
        · rw [List.mem_singleton.1 h] at hfe
          exact absurd hfe.symm hn

theorem nameIds_of_registered {V : Type} (f : V → CppString) (l : List (Nat × V))
    (hl : KeysAscending l) (registered : List CppString)
    (hfind : ∀ i n, (∃ v, findEntry l i = some v ∧ f v = n) ↔ registered[i]? = some n) :
    NameIdMapSpec registered
      (l.foldl (fun (result : StdMap CppString Nat) a => result.assign (f a.2) a.1)
        StdMap.empty) := by
  have hmem : ∀ i n, (∃ v, (i, v) ∈ l ∧ f v = n) ↔ registered[i]? = some n := by
    intro i n
    rw [← hfind]
    constructor
    · rintro ⟨v, hv, hfv⟩
      exact ⟨v, findEntry_of_mem _ _ _ hl hv, hfv⟩
    · rintro ⟨v, hv, hfv⟩
      exact ⟨v, mem_of_findEntry _ _ _ hv, hfv⟩
  have hspec : ∀ n i, (l.foldl (fun (result : StdMap CppString Nat) a =>
      result.assign (f a.2) a.1) StdMap.empty).find n = some i ↔
      (registered[i]? = some n ∧ ∀ j, registered[j]? = some n → j ≤ i) := by
    intro n i
    rw [nameIds_fold f l hl, hmem]
    constructor
    · rintro ⟨h1, h2⟩
      refine ⟨h1, fun j hj => ?_⟩
      obtain ⟨v, hv, hfv⟩ := (hmem j n).2 hj
      exact h2 j v hv hfv
    · rintro ⟨h1, h2⟩
      exact ⟨h1, fun j v hv hfv => h2 j ((hmem j n).1 ⟨v, hv, hfv⟩)⟩
  refine ⟨?_, hspec, ?_⟩
  · intro n
    rw [nameIds_fold_key, List.mem_iff_getElem?]
    constructor
    · rintro ⟨⟨i, v⟩, he, hfe⟩
      exact ⟨i, (hmem i n).1 ⟨v, he, hfe⟩⟩
    · rintro ⟨i, hi⟩
      obtain ⟨v, hv, hfv⟩ := (hmem i n).2 hi
      exact ⟨(i, v), hv, hfv⟩
  · intro hnd i n hi
    rw [hspec]
    refine ⟨hi, fun j hj => ?_⟩
    have hij : j = i := by
      have hjl : j < registered.length := (List.getElem?_eq_some_iff.1 hj).1
      have hil : i < registered.length := (List.getElem?_eq_some_iff.1 hi).1
      have h1 := (List.getElem?_eq_some_iff.1 hj).2
      have h2 := (List.getElem?_eq_some_iff.1 hi).2
      exact (List.Nodup.getElem_inj_iff hnd).1 (h1.trans h2.symm)
    exact le_of_eq hij

theorem ValueId.value_registerAll_entries
    (regs : List (CppString × CppString × Nat × ValueId.ScaleType × Bool)) (r : ValueId)
    (hpaths : ∀ a ∈ regs, a.2.1 ≠ []) (hN : r.next_id_ + regs.length ≤ UINT_MOD) :
    ∃ ids r', r.registerAll regs = some (ids, r') ∧
      (∀ j, j < r.next_id_ ∨ r.next_id_ + regs.length ≤ j →
        r'.info_map_.find j = r.info_map_.find j) ∧
      (∀ k a, regs[k]? = some a → ∃ group, nameFromPath a.2.1 = some group ∧
        r'.info_map_.find (r.next_id_ + k)
          = some ⟨a.1, group, a.2.2.1, a.2.2.2.1, a.2.2.2.2⟩) := by
  induction regs generalizing r with
  | nil =>
    refine ⟨[], r, rfl, fun _ _ => rfl, ?_⟩
    intro k a h
    simp at h
  | cons a rest ih =>
    obtain ⟨name, file_path, default_value, scale_type, round_to_pixel⟩ := a
    obtain ⟨group, hgroup, hnext⟩ := ValueId.value_nextId_nonempty r name file_path
      default_value scale_type round_to_pixel (hpaths _ (List.mem_cons_self _ _))
    simp only [List.length_cons] at hN
    have hstep := counter_step _ _ hN
    have hle : (r.next_id_ + 1) % UINT_MOD + rest.length ≤ UINT_MOD :=
      le_trans (Nat.add_le_add_right (Nat.mod_le _ _) _) (by omega)
    obtain ⟨ids, r', hr', hout, hin⟩ := ih
      { next_id_ := (r.next_id_ + 1) % UINT_MOD,
        info_map_ := r.info_map_.assign r.next_id_
          ⟨name, group, default_value, scale_type, round_to_pixel⟩ }
      (fun a ha => hpaths a (List.mem_cons_of_mem _ ha)) hle
    simp only at hout hin
    refine ⟨r.next_id_ :: ids, r', ?_, ?_, ?_⟩
    · simp only [ValueId.registerAll, hnext, hr']
    · intro j hj
      simp only [List.length_cons] at hj
      rw [hout j (by omega), StdMap.find_assign_ne _ _ _ _ (by omega)]
    · intro k b hb
      cases k with
      | zero =>
        simp only [List.getElem?_cons_zero, Option.some.injEq] at hb
        subst hb
        refine ⟨group, hgroup, ?_⟩
        rw [hout _ (by omega)]
        exact StdMap.find_assign_self _ _ _
      | succ k =>
        simp only [List.getElem?_cons_succ] at hb
        have hk : k < rest.length := by
          rcases Nat.lt_or_ge k rest.length with h | h
          · exact h
          · rw [List.getElem?_eq_none h] at hb
            exact absurd hb (by simp)
        obtain ⟨g, hg, hfind⟩ := hin k b hb
        refine ⟨g, hg, ?_⟩
        have hc : (r.next_id_ + 1) % UINT_MOD = r.next_id_ + 1 := by omega
        rw [hc] at hfind
        rw [← hfind]
        congr 1
        omega

theorem OverrideId.override_registerAll_entries (names : List CppString) (r : OverrideId)
    (hN : r.next_id_ + names.length ≤ UINT_MOD) :
    (∀ j, j < r.next_id_ ∨ r.next_id_ + names.length ≤ j →
        (r.registerAll names).2.name_map_.find j = r.name_map_.find j) ∧
      (∀ k n, names[k]? = some n →
        (r.registerAll names).2.name_map_.find (r.next_id_ + k) = some n) := by
  induction names generalizing r with
  | nil =>
    refine ⟨fun _ _ => rfl, ?_⟩
    intro k a h
    simp at h
  | cons a rest ih =>
    simp only [List.length_cons] at hN
    have hstep := counter_step _ _ hN
    have hle : (r.next_id_ + 1) % UINT_MOD + rest.length ≤ UINT_MOD :=
      le_trans (Nat.add_le_add_right (Nat.mod_le _ _) _) (by omega)
    obtain ⟨hout, hin⟩ := ih (r.nextId a).2 hle
    simp only [OverrideId.nextId] at hout hin
    simp only [OverrideId.registerAll, OverrideId.nextId]
    refine ⟨?_, ?_⟩
    · intro j hj
      simp only [List.length_cons] at hj
      rw [hout j (by omega), StdMap.find_assign_ne _ _ _ _ (by omega)]
    · intro k b hb
      cases k with
      | zero =>
        simp only [List.getElem?_cons_zero, Option.some.injEq] at hb
        subst hb
        rw [hout _ (by omega)]
        exact StdMap.find_assign_self _ _ _
      | succ k =>
        simp only [List.getElem?_cons_succ] at hb
        have hk : k < rest.length := by
          rcases Nat.lt_or_ge k rest.length with h | h
          · exact h
          · rw [List.getElem?_eq_none h] at hb
            exact absurd hb (by simp)
        have hidx : r.next_id_ + (k + 1) = (r.next_id_ + 1) % UINT_MOD + k := by omega
        rw [hidx]
        exact hin k b hb

theorem ColorId.nameIdMap_after (regs : List (CppString × CppString × Nat))
    (hN : regs.length ≤ UINT_MOD) (hpaths : ∀ a ∈ regs, a.2.1 ≠ []) :
    ∃ ids r, ColorId.fresh.registerAll regs = some (ids, r) ∧
      NameIdMapSpec (regs.map (fun a => a.1)) r.nameIdMap := by
  obtain ⟨ids, r, hr, hout, hin⟩ := ColorId.color_registerAll_entries regs ColorId.fresh hpaths
    (by simp only [ColorId.fresh]; omega)
  simp only [ColorId.fresh, Nat.zero_add] at hout hin
  refine ⟨ids, r, hr,
    nameIds_of_registered (fun (v : ColorId.ColorIdInfo) => v.name) _ r.info_map_.ordered _ ?_⟩
  intro i n
  rw [List.getElem?_map]
  constructor
  · rintro ⟨v, hv, hvn⟩
    rcases Nat.lt_or_ge i regs.length with hi | hi
    · obtain ⟨a, ha⟩ : ∃ a, regs[i]? = some a := ⟨regs[i], List.getElem?_eq_getElem hi⟩
      obtain ⟨g, -, hfind⟩ := hin i a ha
      have heq : v = ⟨a.1, g, a.2.2⟩ := Option.some.inj (hv.symm.trans hfind)
      rw [ha, ← hvn, heq]
      rfl
    · have hnone : r.info_map_.find i = none := by
        rw [hout i (Or.inr hi)]
        rfl
      exact absurd (hv.symm.trans hnone) (by simp)
  · intro h
    cases ha : regs[i]? with
    | none => simp [ha] at h
    | some a =>
      simp only [ha, Option.map_some', Option.some.injEq] at h
      obtain ⟨g, -, hfind⟩ := hin i a ha
      exact ⟨_, hfind, h⟩

theorem ValueId.nameIdMap_after_values
    (regs : List (CppString × CppString × Nat × ValueId.ScaleType × Bool))
    (hN : regs.length ≤ UINT_MOD) (hpaths : ∀ a ∈ regs, a.2.1 ≠ []) :
    ∃ ids r, ValueId.fresh.registerAll regs = some (ids, r) ∧
      NameIdMapSpec (regs.map (fun a => a.1)) r.nameIdMap := by
  obtain ⟨ids, r, hr, hout, hin⟩ := ValueId.value_registerAll_entries regs ValueId.fresh hpaths
    (by simp only [ValueId.fresh]; omega)
  simp only [ValueId.fresh, Nat.zero_add] at hout hin
  refine ⟨ids, r, hr,
    nameIds_of_registered (fun (v : ValueId.ValueIdInfo) => v.name) _ r.info_map_.ordered _ ?_⟩
  intro i n
  rw [List.getElem?_map]
  constructor
  · rintro ⟨v, hv, hvn⟩
    rcases Nat.lt_or_ge i regs.length with hi | hi
    · obtain ⟨a, ha⟩ : ∃ a, regs[i]? = some a := ⟨regs[i], List.getElem?_eq_getElem hi⟩
      obtain ⟨g, -, hfind⟩ := hin i a ha
      have heq : v = ⟨a.1, g, a.2.2.1, a.2.2.2.1, a.2.2.2.2⟩ :=
        Option.some.inj (hv.symm.trans hfind)
      rw [ha, ← hvn, heq]
      rfl
    · have hnone : r.info_map_.find i = none := by
        rw [hout i (Or.inr hi)]
        rfl
      exact absurd (hv.symm.trans hnone) (by simp)
  · intro h
    cases ha : regs[i]? with
    | none => simp [ha] at h
    | some a =>
      simp only [ha, Option.map_some', Option.some.injEq] at h
      obtain ⟨g, -, hfind⟩ := hin i a ha
      exact ⟨_, hfind, h⟩

theorem OverrideId.nameIdMap_after_overrides (names : List CppString)
    (hN : names.length < UINT_MOD) :
    NameIdMapSpec ("Global".data :: names) (OverrideId.fresh.registerAll names).2.nameIdMap := by
  obtain ⟨hout, hin⟩ := OverrideId.override_registerAll_entries names OverrideId.fresh
    (by simp only [OverrideId.fresh]; omega)
  have hone : OverrideId.fresh.next_id_ = 1 := rfl
  rw [hone] at hout hin
  have hfresh : ∀ j, 1 + names.length ≤ j → OverrideId.fresh.name_map_.find j = none := by
    intro j hj
    have h0 : j ≠ 0 := by omega
    simp [OverrideId.fresh, StdMap.find, StdMap.assign, StdMap.empty, insertEntry, findEntry, h0]
  refine nameIds_of_registered (fun (v : CppString) => v) _
    (OverrideId.fresh.registerAll names).2.name_map_.ordered _ ?_
  intro i n
  cases i with
  | zero =>
    have h0 : (OverrideId.fresh.registerAll names).2.name_map_.find 0 = some "Global".data := by
      rw [hout 0 (Or.inl (by omega))]
      decide
    simp only [List.getElem?_cons_zero, Option.some.injEq]
    constructor
    · rintro ⟨v, hv, hvn⟩
      rw [← hvn]
      exact (Option.some.inj (hv.symm.trans h0)).symm
    · intro h
      exact ⟨_, h0, h⟩
  | succ k =>
    simp only [List.getElem?_cons_succ]
    constructor
    · rintro ⟨v, hv, hvn⟩
      rcases Nat.lt_or_ge k names.length with hk | hk
      · have hfind := hin k names[k] (List.getElem?_eq_getElem hk)
        rw [Nat.add_comm] at hfind
        rw [List.getElem?_eq_getElem hk, ← hvn]
        exact congrArg some (Option.some.inj (hfind.symm.trans hv))
      · have hnone : (OverrideId.fresh.registerAll names).2.name_map_.find (k + 1) = none := by
          rw [hout (k + 1) (Or.inr (by omega))]
          exact hfresh _ (by omega)
        exact absurd (hv.symm.trans hnone) (by simp)
    · intro h
      have hfind := hin k n h
      rw [Nat.add_comm] at hfind
      exact ⟨n, hfind, rfl⟩

/-- C6 (amended): as long as the 32-bit counter has not wrapped (at most
`2 ^ 32` registrations for `ColorId` and `ValueId`, all with non-empty paths,
and fewer than `2 ^ 32` for `OverrideId`), after the registrations on a fresh
registry `nameIdMap()` has as its keys exactly the registered names (and
"Global" for `OverrideId`), maps each name to the greatest id registered under
it, and, when the names are pairwise distinct, maps the name of every issued
id to that id. -/
theorem nameIdMap_maps_name_to_latest_id
    (colors : List (CppString × CppString × Nat))
    (values : List (CppString × CppString × Nat × ValueId.ScaleType × Bool))
    (names : List CppString)
    (hc : colors.length ≤ UINT_MOD) (hcp : ∀ a ∈ colors, a.2.1 ≠ [])
    (hv : values.length ≤ UINT_MOD) (hvp : ∀ a ∈ values, a.2.1 ≠ [])
    (hn : names.length < UINT_MOD) :
    (∃ ids r, ColorId.fresh.registerAll colors = some (ids, r) ∧
        NameIdMapSpec (colors.map (fun a => a.1)) r.nameIdMap) ∧
      (∃ ids r, ValueId.fresh.registerAll values = some (ids, r) ∧
        NameIdMapSpec (values.map (fun a => a.1)) r.nameIdMap) ∧
      NameIdMapSpec ("Global".data :: names)
        (OverrideId.fresh.registerAll names).2.nameIdMap :=
  ⟨ColorId.nameIdMap_after colors hc hcp, ValueId.nameIdMap_after_values values hv hvp,
    OverrideId.nameIdMap_after_overrides names hn⟩

/-- C6 at a concrete input in which the name "Red", the name "Gap" and the
name "Dark" are each registered twice. -/
theorem nameIdMap_maps_name_to_latest_id_witness :
    (∃ ids r, ColorId.fresh.registerAll
        [("Red".data, "colors/Red.h".data, 0xFFFF0000),
         ("Blue".data, "colors/Blue.h".data, 0xFF0000FF),
         ("Red".data, "other/Red.h".data, 0xFFEE0000)] = some (ids, r) ∧
        NameIdMapSpec ["Red".data, "Blue".data, "Red".data] r.nameIdMap) ∧
      (∃ ids r, ValueId.fresh.registerAll
        [("Gap".data, "ui/Knob.cpp".data, 0x41200000, ValueId.ScaleType.kScaledDpi, true),
         ("Gap".data, "ui/Bar.cpp".data, 0x3F000000, ValueId.ScaleType.kConstant, false)]
          = some (ids, r) ∧
        NameIdMapSpec ["Gap".data, "Gap".data] r.nameIdMap) ∧
      NameIdMapSpec ["Global".data, "Dark".data, "Light".data, "Dark".data]
        (OverrideId.fresh.registerAll ["Dark".data, "Light".data, "Dark".data]).2.nameIdMap :=
  nameIdMap_maps_name_to_latest_id
    [("Red".data, "colors/Red.h".data, 0xFFFF0000),
     ("Blue".data, "colors/Blue.h".data, 0xFF0000FF),
     ("Red".data, "other/Red.h".data, 0xFFEE0000)]
    [("Gap".data, "ui/Knob.cpp".data, 0x41200000, ValueId.ScaleType.kScaledDpi, true),
     ("Gap".data, "ui/Bar.cpp".data, 0x3F000000, ValueId.ScaleType.kConstant, false)]
    ["Dark".data, "Light".data, "Dark".data]
    (by decide) (by decide) (by decide) (by decide) (by decide)

theorem mem_insertEntry_ne {K V : Type} [LinearOrder K] (l : List (K × V)) (k : K) (v : V)
    (hl : KeysAscending l) (e : K × V) (he : e ∈ insertEntry l k v) :
    e = (k, v) ∨ (e ∈ l ∧ e.1 ≠ k) := by
  by_cases hk : e.1 = k
  · left
    have h := findEntry_of_mem _ e.1 e.2 (insertEntry_ascending l k v hl) he
    rw [hk, findEntry_insertEntry_self] at h
    exact Prod.ext hk (Option.some.inj h).symm
  · rcases mem_insertEntry l k v e he with h | h
    · rw [h] at hk
      exact absurd rfl hk
    · exact Or.inr ⟨h, hk⟩

theorem OverrideId.override_registerAll_append (l1 l2 : List CppString) (r : OverrideId) :
    (r.registerAll (l1 ++ l2)).2 = ((r.registerAll l1).2.registerAll l2).2 := by
  induction l1 generalizing r with
  | nil => rfl
  | cons a rest ih =>
    simp only [List.cons_append, OverrideId.registerAll]
    exact ih _

theorem OverrideId.override_counter (names : List CppString) (r : OverrideId)
    (hr : r.next_id_ < UINT_MOD) :
    (r.registerAll names).2.next_id_ = (r.next_id_ + names.length) % UINT_MOD := by
  induction names generalizing r with
  | nil => exact (Nat.mod_eq_of_lt hr).symm
  | cons a rest ih =>
    simp only [OverrideId.registerAll]
    rw [ih (r.nextId a).2 (Nat.mod_lt _ (by decide))]
    simp only [OverrideId.nextId, List.length_cons, Nat.mod_add_mod]
    congr 1
    omega

theorem OverrideId.override_same_name (names : List CppString) (x : CppString)
    (r : OverrideId) (hx : ∀ n ∈ names, n = x)
    (hr : ∀ e ∈ r.name_map_.entries, e.2 = x ∨ e.1 = 0) :
    ∀ e ∈ (r.registerAll names).2.name_map_.entries, e.2 = x ∨ e.1 = 0 := by
  induction names generalizing r with
  | nil => exact hr
  | cons a rest ih =>
    simp only [OverrideId.registerAll]
    refine ih (r.nextId a).2 (fun n hn => hx n (List.mem_cons_of_mem _ hn)) ?_
    intro e he
    rcases mem_insertEntry _ _ _ e he with h | h
    · left
      rw [h]
      exact hx a (List.mem_cons_self _ _)
    · exact hr e h

theorem OverrideId.override_all_renamed (l : List CppString) (x : CppString)
    (hx : ∀ n ∈ l, n = x) (hlen : l.length = UINT_MOD - 1) :
    ∀ e ∈ (OverrideId.fresh.registerAll (l ++ [x])).2.name_map_.entries, e.2 = x := by
  have hsame := OverrideId.override_same_name l x OverrideId.fresh hx
    (by intro e he; right; revert e he; decide)
  have hzero : (OverrideId.fresh.registerAll l).2.next_id_ = 0 := by
    rw [OverrideId.override_counter l OverrideId.fresh (by decide), hlen]
    decide
  intro e he
  rw [OverrideId.override_registerAll_append] at he
  simp only [OverrideId.registerAll, OverrideId.nextId, StdMap.assign, hzero] at he
  rcases mem_insertEntry_ne _ _ _ (StdMap.ordered _) e he with h | h
  · rw [h]
  · rcases hsame e h.1 with h' | h'
    · exact h'
    · exact absurd h' h.2

theorem OverrideId.override_no_key (r : OverrideId) (x n : CppString) (hn : n ≠ x)
    (hall : ∀ e ∈ r.name_map_.entries, e.2 = x) : r.nameIdMap.find n = none := by
  cases hfind : r.nameIdMap.find n with
  | none => rfl
  | some i =>
    obtain ⟨e, he, hen⟩ := (nameIds_fold_key (fun (v : CppString) => v) _ n).1 ⟨i, hfind⟩
    have hen' : e.2 = n := hen
    rw [hall e he] at hen'
    exact absurd hen'.symm hn

theorem OverrideId.override_global_lost (l : List CppString) (x : CppString)
    (hne : "Global".data ≠ x) (hx : ∀ n ∈ l, n = x) (hlen : l.length = UINT_MOD - 1) :
    (OverrideId.fresh.registerAll (l ++ [x])).2.nameIdMap.find "Global".data = none :=
  OverrideId.override_no_key _ x _ hne (OverrideId.override_all_renamed l x hx hlen)

/-- C6 fails as stated: after the `2 ^ 32` registrations of
`wrapAroundOverrides` the counter has wrapped, the last registration has
replaced the seeded entry of id `0`, and "Global" is not a key of `nameIdMap()`. -/
theorem OverrideId.global_key_lost_after_wraparound :
    (OverrideId.fresh.registerAll wrapAroundOverrides).2.nameIdMap.find "Global".data
      = none :=
  OverrideId.override_global_lost (List.replicate (UINT_MOD - 1) "x".data) "x".data
    (by decide) (fun _ hn => List.eq_of_mem_replicate hn) (List.length_replicate _ _)

/-! ## The group derived by `nameFromPath` -/

theorem lastIndexOf_none (p : Char → Bool) (l : List Char)
    (h : l.all (fun c => !p c) = true) : lastIndexOf p l = none := by
  induction l with
  | nil => rfl
  | cons c cs ih =>
    simp only [List.all_cons, Bool.and_eq_true, Bool.not_eq_true'] at h
    simp only [lastIndexOf, ih h.2, h.1]
    rfl

theorem lastIndexOf_last (chars l : CppString) (i : Nat)
    (h : isLastOccurrence chars l i = true) :
    lastIndexOf (fun c => chars.contains c) l = some i ∧ i < l.length := by
  induction l generalizing i with
  | nil => simp [isLastOccurrence] at h
  | cons c cs ih =>
    cases i with
    | zero =>
      simp only [isLastOccurrence, List.getElem?_cons_zero, Option.any_some, Nat.zero_add,
        List.drop_succ_cons, List.drop_zero, Bool.and_eq_true] at h
      simp only [lastIndexOf, lastIndexOf_none _ cs h.2, h.1, if_true, List.length_cons]
      exact ⟨trivial, Nat.succ_pos _⟩
    | succ k =>
      have hk : isLastOccurrence chars cs k = true := by
        simpa [isLastOccurrence] using h
      obtain ⟨h1, h2⟩ := ih k hk
      simp only [lastIndexOf, h1, List.length_cons]
      exact ⟨trivial, Nat.succ_lt_succ h2⟩

theorem find_last_of_last (chars s : CppString) (i : Nat)
    (h : isLastOccurrence chars s i = true) : find_last_of s chars = i ∧ i < s.length := by
  obtain ⟨h1, h2⟩ := lastIndexOf_last chars s i h
  simp only [find_last_of, h1]
  exact ⟨trivial, h2⟩

theorem find_last_of_absent (chars s : CppString) (h : ∀ c ∈ s, c ∉ chars) :
    find_last_of s chars = npos := by
  have hall : s.all (fun c => !chars.contains c) = true := by
    simp only [List.all_eq_true, Bool.not_eq_true', List.contains_eq_any_beq, List.any_eq_false,
      beq_iff_eq]
    intro c hc x hx hxc
    exact h c hc (hxc ▸ hx)
  simp only [find_last_of, lastIndexOf_none _ s hall]

theorem size_mod_eq : SIZE_MOD = 18446744073709551616 := by decide

/-- C7: for every path whose last path separator is at index `s` and whose last
`.` is at index `e` with `s < e`, `nameFromPath(path)` is the string of the
characters strictly between them, `path[s+1 .. e-1]`. -/
theorem nameFromPath_between_separator_and_dot (file_path : CppString) (s e : Nat)
    (hlen : file_path.length < SIZE_MOD)
    (hs : isLastOccurrence "\\/".data file_path s = true)
    (he : isLastOccurrence ".".data file_path e = true) (hse : s < e) :
    nameFromPath file_path = some ((file_path.drop (s + 1)).take (e - s - 1)) := by
  obtain ⟨h1, hs'⟩ := find_last_of_last _ _ _ hs
  obtain ⟨h2, he'⟩ := find_last_of_last _ _ _ he
  have hM := size_mod_eq
  have hn1 : ¬ s = npos := by
    unfold npos
    omega
  have hn2 : ¬ e = npos := by
    unfold npos
    omega
  simp only [nameFromPath, h1, h2, if_neg hn1, if_neg hn2, substr]
  rw [hM] at hlen ⊢
  have hp : (s + 1) % 18446744073709551616 = s + 1 := by omega
  have hl : (e + 18446744073709551616 - s - 1) % 18446744073709551616 = e - s - 1 := by omega
  rw [hp, hl, if_neg (by omega)]

/-- C7 at the path `a/b/Foo.cpp`: last separator at index 3, last `.` at index 7. -/
theorem nameFromPath_between_separator_and_dot_witness :
    nameFromPath "a/b/Foo.cpp".data = some "Foo".data :=
  nameFromPath_between_separator_and_dot "a/b/Foo.cpp".data 3 7 (by decide) (by decide)
    (by decide) (by decide)

/-- C8, the code at the failing input: for the path `Foo.cpp`, which has no
separator, `nameFromPath` returns `oo`, not `Foo`: `start` is set to `0` and the
substring begins at `start + 1`. -/
theorem nameFromPath_without_separator_drops_first_char :
    nameFromPath "Foo.cpp".data = some "oo".data ∧
      nameFromPath "Foo.cpp".data ≠ some "Foo".data := by
  decide

/-- C9: for every path that contains a path separator, the last one at index
`s`, and no `.`, `nameFromPath(path)` is everything after that separator,
`path[s+1 .. length-1]`. -/
theorem nameFromPath_after_separator (file_path : CppString) (s : Nat)
    (hlen : file_path.length < SIZE_MOD)
    (hs : isLastOccurrence "\\/".data file_path s = true)
    (hdot : ∀ c ∈ file_path, c ∉ ".".data) :
    nameFromPath file_path = some (file_path.drop (s + 1)) := by
  obtain ⟨h1, hs'⟩ := find_last_of_last _ _ _ hs
  have h2 := find_last_of_absent _ _ hdot
  have hM := size_mod_eq
  have hn1 : ¬ s = npos := by
    unfold npos
    omega
  simp only [nameFromPath, h1, h2, if_neg hn1, if_true, substr]
  rw [hM] at hlen ⊢
  have hp : (s + 1) % 18446744073709551616 = s + 1 := by omega
  have hl : (file_path.length + 18446744073709551616 - s - 1) % 18446744073709551616
      = file_path.length - (s + 1) := by omega
  rw [hp, hl, if_neg (by omega), List.take_of_length_le (by rw [List.length_drop])]

/-- C9 at the path `a/b/Foo`: last separator at index 3, no `.`. -/
theorem nameFromPath_after_separator_witness :
    nameFromPath "a/b/Foo".data = some "Foo".data :=
  nameFromPath_after_separator "a/b/Foo".data 3 (by decide) (by decide) (by decide)

/-! ## Registering twice -/

theorem toInt_add_two_iff (c : Nat) (h : c + 2 ≤ UINT_MOD) :
    toInt ((((c + 1) % UINT_MOD) + 1) % UINT_MOD) = toInt c + 2 ↔
      (c ≠ INT_MAX - 1 ∧ c ≠ INT_MAX) := by
  have hM : UINT_MOD = 4294967296 := by decide
  have hI : INT_MAX = 2147483647 := by decide
  rw [hM] at h ⊢
  rw [hI]
  unfold toInt
  have h1 : (c + 1) % 4294967296 = c + 1 := by omega
  rw [h1]
  split_ifs <;> omega

/-- C10 (amended): for every registry state whose counter is at least 2 below
`2 ^ 32` and every argument tuple (with a non-empty path for `ColorId` and
`ValueId`), two calls of `nextId` with the same arguments succeed and return
two distinct ids, the second being the first plus 1; and the count
(`numColorIds`, `numValueIds`, `numOverrideIds`), an `int`, increases by exactly
2 if and only if the counter is neither `2 ^ 31 - 2` nor `2 ^ 31 - 1`, the two
values from which two registrations carry it past the largest `int`. -/
theorem nextId_twice_gives_two_ids (c : ColorId) (v : ValueId) (o : OverrideId)
    (name file_path : CppString) (default_color default_value : Nat)
    (scale_type : ValueId.ScaleType) (round_to_pixel : Bool)
    (hpath : file_path ≠ [])
    (hc : c.next_id_ + 2 ≤ UINT_MOD) (hv : v.next_id_ + 2 ≤ UINT_MOD)
    (ho : o.next_id_ + 2 ≤ UINT_MOD) :
    (∃ i1 c1 i2 c2, c.nextId name file_path default_color = some (i1, c1) ∧
        c1.nextId name file_path default_color = some (i2, c2) ∧
        i1 ≠ i2 ∧ i2 = i1 + 1 ∧
        (c2.numColorIds = c.numColorIds + 2 ↔
          (c.next_id_ ≠ INT_MAX - 1 ∧ c.next_id_ ≠ INT_MAX))) ∧
      (∃ i1 v1 i2 v2,
        v.nextId name file_path default_value scale_type round_to_pixel = some (i1, v1) ∧
        v1.nextId name file_path default_value scale_type round_to_pixel = some (i2, v2) ∧
        i1 ≠ i2 ∧ i2 = i1 + 1 ∧
        (v2.numValueIds = v.numValueIds + 2 ↔
          (v.next_id_ ≠ INT_MAX - 1 ∧ v.next_id_ ≠ INT_MAX))) ∧
      ((o.nextId name).1 ≠ ((o.nextId name).2.nextId name).1 ∧
        ((o.nextId name).2.nextId name).1 = (o.nextId name).1 + 1 ∧
        (((o.nextId name).2.nextId name).2.numOverrideIds = o.numOverrideIds + 2 ↔
          (o.next_id_ ≠ INT_MAX - 1 ∧ o.next_id_ ≠ INT_MAX))) := by
  have hmod : ∀ n, n + 2 ≤ UINT_MOD → (n + 1) % UINT_MOD = n + 1 :=
    fun n hn => Nat.mod_eq_of_lt (by omega)
  refine ⟨?_, ?_, ?_⟩
  · obtain ⟨g, -, h1⟩ := ColorId.color_nextId_nonempty c name file_path default_color hpath
    obtain ⟨g', -, h2⟩ := ColorId.color_nextId_nonempty
      { next_id_ := (c.next_id_ + 1) % UINT_MOD,
        info_map_ := c.info_map_.assign c.next_id_ ⟨name, g, default_color⟩ }
      name file_path default_color hpath
    refine ⟨_, _, _, _, h1, h2, ?_, ?_, ?_⟩
    · simp only [hmod _ hc]
      omega
    · simp only [hmod _ hc]
    · exact toInt_add_two_iff _ (by omega)
  · obtain ⟨g, -, h1⟩ := ValueId.value_nextId_nonempty v name file_path default_value
      scale_type round_to_pixel hpath
    obtain ⟨g', -, h2⟩ := ValueId.value_nextId_nonempty
      { next_id_ := (v.next_id_ + 1) % UINT_MOD,
        info_map_ := v.info_map_.assign v.next_id_
          ⟨name, g, default_value, scale_type, round_to_pixel⟩ }
      name file_path default_value scale_type round_to_pixel hpath
    refine ⟨_, _, _, _, h1, h2, ?_, ?_, ?_⟩
    · simp only [hmod _ hv]
      omega
    · simp only [hmod _ hv]
    · exact toInt_add_two_iff _ (by omega)
  · simp only [OverrideId.nextId, hmod _ ho]
    refine ⟨by omega, trivial, ?_⟩
    have h := toInt_add_two_iff _ ho
    rw [hmod _ ho] at h
    exact h

/-- C10 at a concrete input: fresh `ColorId` and `ValueId` registries and an
`OverrideId` registry, each registering the same arguments twice. -/
theorem nextId_twice_gives_two_ids_witness :
    (∃ i1 c1 i2 c2,
        ColorId.fresh.nextId "Red".data "colors/Red.h".data 0xFFFF0000 = some (i1, c1) ∧
        c1.nextId "Red".data "colors/Red.h".data 0xFFFF0000 = some (i2, c2) ∧
        i1 ≠ i2 ∧ i2 = i1 + 1 ∧
        (c2.numColorIds = ColorId.fresh.numColorIds + 2 ↔
          (ColorId.fresh.next_id_ ≠ INT_MAX - 1 ∧ ColorId.fresh.next_id_ ≠ INT_MAX))) ∧
      (∃ i1 v1 i2 v2,
        ValueId.fresh.nextId "Red".data "colors/Red.h".data 0x41200000
          ValueId.ScaleType.kScaledWidth true = some (i1, v1) ∧
        v1.nextId "Red".data "colors/Red.h".data 0x41200000
          ValueId.ScaleType.kScaledWidth true = some (i2, v2) ∧
        i1 ≠ i2 ∧ i2 = i1 + 1 ∧
        (v2.numValueIds = ValueId.fresh.numValueIds + 2 ↔
          (ValueId.fresh.next_id_ ≠ INT_MAX - 1 ∧ ValueId.fresh.next_id_ ≠ INT_MAX))) ∧
      ((OverrideId.fresh.nextId "Red".data).1
          ≠ ((OverrideId.fresh.nextId "Red".data).2.nextId "Red".data).1 ∧
        ((OverrideId.fresh.nextId "Red".data).2.nextId "Red".data).1
          = (OverrideId.fresh.nextId "Red".data).1 + 1 ∧
        (((OverrideId.fresh.nextId "Red".data).2.nextId "Red".data).2.numOverrideIds
            = OverrideId.fresh.numOverrideIds + 2 ↔
          (OverrideId.fresh.next_id_ ≠ INT_MAX - 1 ∧
            OverrideId.fresh.next_id_ ≠ INT_MAX))) :=
  nextId_twice_gives_two_ids ColorId.fresh ValueId.fresh OverrideId.fresh
    "Red".data "colors/Red.h".data 0xFFFF0000 0x41200000 ValueId.ScaleType.kScaledWidth true
    (by decide) (by decide) (by decide) (by decide)

theorem toInt_at_int_max :
    toInt INT_MAX = 2147483647 ∧
      toInt ((((INT_MAX + 1) % UINT_MOD) + 1) % UINT_MOD) = -2147483647 := by
  decide

theorem ColorId.count_after_int_max (regs : List (CppString × CppString × Nat))
    (hlen : regs.length = INT_MAX) (hpaths : ∀ a ∈ regs, a.2.1 ≠ []) :
    ∃ ids r i1 r1 i2 r2,
      ColorId.fresh.registerAll regs = some (ids, r) ∧
        r.next_id_ + 2 < UINT_MOD ∧
        r.nextId "a".data "d/a.h".data 0 = some (i1, r1) ∧
        r1.nextId "a".data "d/a.h".data 0 = some (i2, r2) ∧
        r.numColorIds = 2147483647 ∧ r2.numColorIds = -2147483647 ∧
        r2.numColorIds ≠ r.numColorIds + 2 := by
  have hmax : INT_MAX % UINT_MOD = INT_MAX := by decide
  obtain ⟨ids, r, hr, hc⟩ := ColorId.counter_after regs (by rw [hlen]; decide) hpaths
  rw [hlen, hmax] at hc
  obtain ⟨g, -, h1⟩ := ColorId.color_nextId_nonempty r "a".data "d/a.h".data 0 (by decide)
  obtain ⟨g', -, h2⟩ := ColorId.color_nextId_nonempty
    { next_id_ := (r.next_id_ + 1) % UINT_MOD,
      info_map_ := r.info_map_.assign r.next_id_ ⟨"a".data, g, 0⟩ }
    "a".data "d/a.h".data 0 (by decide)
  refine ⟨ids, r, _, _, _, _, hr, ?_, h1, h2, ?_, ?_, ?_⟩
  · rw [hc]
    decide
  · simp only [ColorId.numColorIds, hc]
    exact toInt_at_int_max.1
  · simp only [ColorId.numColorIds, hc]
    exact toInt_at_int_max.2
  · simp only [ColorId.numColorIds, hc, toInt_at_int_max.1, toInt_at_int_max.2]
    decide

/-- C10 fails as stated: after the `2 ^ 31 - 1` registrations of `manyColors`
the counter is `2 ^ 31 - 1`, more than 2 below the limit of the 32-bit counter;
two further calls of `nextId` with the same arguments succeed, and
`numColorIds()`, an `int`, goes from `2147483647` to `-2147483647`. -/
theorem ColorId.count_wraps_at_int_max :
    ∃ ids r i1 r1 i2 r2,
      ColorId.fresh.registerAll ColorId.manyColors = some (ids, r) ∧
        r.next_id_ + 2 < UINT_MOD ∧
        r.nextId "a".data "d/a.h".data 0 = some (i1, r1) ∧
        r1.nextId "a".data "d/a.h".data 0 = some (i2, r2) ∧
        r.numColorIds = 2147483647 ∧ r2.numColorIds = -2147483647 ∧
        r2.numColorIds ≠ r.numColorIds + 2 :=
  ColorId.count_after_int_max
    (List.replicate INT_MAX ("a".data, "d/a.h".data, (0 : Nat)))
    (List.length_replicate _ _)
    (fun a ha => by rw [List.eq_of_mem_replicate ha]; decide)

/-! ## When `nameFromPath` throws -/

theorem nameFromPath_start_le (file_path : CppString) (h : file_path ≠ []) :
    ((if find_last_of file_path "\\/".data = npos then 0
      else find_last_of file_path "\\/".data) + 1) % SIZE_MOD ≤ file_path.length := by
  have hlen : 1 ≤ file_path.length := by
    cases file_path with
    | nil => exact absurd rfl h
    | cons c cs => simp
  split_ifs with h1
  · exact le_trans (Nat.mod_le _ _) hlen
  · rcases find_last_of_bound file_path "\\/".data with h2 | h2
    · exact absurd h2 h1
    · exact le_trans (Nat.mod_le _ _) h2

/-- C16: `nameFromPath` fails, `substr` being called with a start position past
the end of the string, if and only if the path is empty: for a non-empty path
the start position `start + 1` is at most the length of the path and a string
is returned; for the empty path the start position is `1 > 0`, and
`ColorId::nextId` and `ValueId::nextId` with an empty file path issue no id. -/
theorem nameFromPath_fails_iff_empty (file_path : CppString) :
    (nameFromPath file_path = none ↔ file_path = []) ∧
      (file_path ≠ [] →
        ((if find_last_of file_path "\\/".data = npos then 0
          else find_last_of file_path "\\/".data) + 1) % SIZE_MOD ≤ file_path.length ∧
        ∃ group, nameFromPath file_path = some group) ∧
      ((if find_last_of [] "\\/".data = npos then 0
          else find_last_of [] "\\/".data) + 1) % SIZE_MOD = 1 ∧
      (∀ (r : ColorId) (name : CppString) (default_color : Nat),
        r.nextId name [] default_color = none) ∧
      (∀ (r : ValueId) (name : CppString) (default_value : Nat)
        (scale_type : ValueId.ScaleType) (round_to_pixel : Bool),
        r.nextId name [] default_value scale_type round_to_pixel = none) := by
  have hempty : nameFromPath [] = none := by decide
  refine ⟨?_, ?_, by decide, ?_, ?_⟩
  · constructor
    · intro h
      by_contra hne
      obtain ⟨g, hg⟩ := nameFromPath_nonempty file_path hne
      rw [hg] at h
      exact absurd h (by simp)
    · intro h
      rw [h]
      exact hempty
  · intro hne
    exact ⟨nameFromPath_start_le file_path hne, nameFromPath_nonempty file_path hne⟩
  · intro r name default_color
    simp only [ColorId.nextId, hempty]
  · intro r name default_value scale_type round_to_pixel
    simp only [ValueId.nextId, hempty]

/-! ## A `.` before the last separator -/

/-- C18: for every path whose last `.` (index `e`) lies before its last path
separator (index `s`), the length argument `end - start - 1`, computed modulo
`2 ^ 64`, is at least the number of characters after the separator, and
`nameFromPath` returns all of them, `path[s+1 .. length-1]`. -/
theorem nameFromPath_dot_before_separator (file_path : CppString) (s e : Nat)
    (hlen : file_path.length < SIZE_MOD)
    (hs : isLastOccurrence "\\/".data file_path s = true)
    (he : isLastOccurrence ".".data file_path e = true) (hes : e < s) :
    file_path.length - (s + 1) ≤ (e + SIZE_MOD - s - 1) % SIZE_MOD ∧
      nameFromPath file_path = some (file_path.drop (s + 1)) := by
  obtain ⟨h1, hs'⟩ := find_last_of_last _ _ _ hs
  obtain ⟨h2, he'⟩ := find_last_of_last _ _ _ he
  have hM := size_mod_eq
  have hn1 : ¬ s = npos := by
    unfold npos
    omega
  have hn2 : ¬ e = npos := by
    unfold npos
    omega
  simp only [nameFromPath, h1, h2, if_neg hn1, if_neg hn2, substr]
  rw [hM] at hlen ⊢
  have hp : (s + 1) % 18446744073709551616 = s + 1 := by omega
  have hl : file_path.length - (s + 1)
      ≤ (e + 18446744073709551616 - s - 1) % 18446744073709551616 := by omega
  refine ⟨hl, ?_⟩
  rw [hp, if_neg (by omega), List.take_of_length_le (by rw [List.length_drop]; exact hl)]

/-- C18 at the paths `../src/Foo` (last `.` at 1, last separator at 6) and
`a.b/Foo` (last `.` at 1, last separator at 3). -/
theorem nameFromPath_dot_before_separator_witness :
    nameFromPath "../src/Foo".data = some "Foo".data ∧
      nameFromPath "a.b/Foo".data = some "Foo".data :=
  ⟨(nameFromPath_dot_before_separator "../src/Foo".data 6 1 (by decide) (by decide)
      (by decide) (by decide)).2,
    (nameFromPath_dot_before_separator "a.b/Foo".data 3 1 (by decide) (by decide)
      (by decide) (by decide)).2⟩

/-! ## The group has no separator -/

theorem lastIndexOf_none_all (p : Char → Bool) (l : List Char)
    (h : lastIndexOf p l = none) : ∀ c ∈ l, p c = false := by
  induction l with
  | nil => intro c hc; exact absurd hc (List.not_mem_nil _)
  | cons c cs ih =>
    simp only [lastIndexOf] at h
    cases hcs : lastIndexOf p cs with
    | some j => simp [hcs] at h
    | none =>
      rw [hcs] at h
      have hpc : p c = false := by
        cases hp : p c with
        | false => rfl
        | true => simp [hp] at h
      intro x hx
      rcases List.mem_cons.1 hx with hx' | hx'
      · rw [hx']; exact hpc
      · exact ih hcs x hx'

theorem lastIndexOf_some_after (p : Char → Bool) (l : List Char) (i : Nat)
    (h : lastIndexOf p l = some i) : ∀ c ∈ l.drop (i + 1), p c = false := by
  induction l generalizing i with
  | nil => simp [lastIndexOf] at h
  | cons c cs ih =>
    simp only [lastIndexOf] at h
    cases hcs : lastIndexOf p cs with
    | some j =>
      rw [hcs] at h
      injection h with h'
      subst h'
      simpa using ih j hcs
    | none =>
      rw [hcs] at h
      split_ifs at h
      injection h with h'
      subst h'
      simpa using lastIndexOf_none_all p cs hcs

theorem substr_is_infix (s : CppString) (pos len : Nat) :
    ∃ before after, s = before ++ (s.drop pos).take len ++ after :=
  ⟨s.take pos, (s.drop pos).drop len, by
    rw [List.append_assoc, List.take_append_drop, List.take_append_drop]⟩

/-- C20: for every non-empty path, `nameFromPath` returns a group that contains
neither `/` nor `\` and that is a contiguous substring of the path. -/
theorem nameFromPath_group_is_separator_free (file_path : CppString)
    (hne : file_path ≠ []) (hlen : file_path.length < SIZE_MOD) :
    ∃ group, nameFromPath file_path = some group ∧
      (∀ c ∈ group, c ∉ "\\/".data) ∧
      ∃ before after, file_path = before ++ group ++ after := by
  have hM := size_mod_eq
  have hpos : 1 ≤ file_path.length := by
    cases file_path with
    | nil => exact absurd rfl hne
    | cons c cs => simp
  have hmem : ∀ c, "\\/".data.contains c = false → c ∉ "\\/".data := by
    intro c hc hin
    have htrue : "\\/".data.contains c = true := List.elem_eq_true_of_mem hin
    rw [hc] at htrue
    exact absurd htrue (by simp)
  cases hlast : lastIndexOf (fun c => "\\/".data.contains c) file_path with
  | none =>
    have hfind : find_last_of file_path "\\/".data = npos := by
      simp only [find_last_of, hlast]
    have hall := lastIndexOf_none_all _ _ hlast
    have hone : (0 + 1) % SIZE_MOD = 1 := by decide
    obtain ⟨len, hform⟩ :
        ∃ len, nameFromPath file_path = some ((file_path.drop 1).take len) := by
      simp only [nameFromPath, hfind, if_true, substr, hone]
      rw [if_neg (by omega)]
      exact ⟨_, rfl⟩
    refine ⟨_, hform, ?_, substr_is_infix file_path 1 len⟩
    intro c hc
    exact hmem c (hall c (List.mem_of_mem_drop (List.mem_of_mem_take hc)))
  | some s =>
    have hs : s < file_path.length := lastIndexOf_lt _ _ _ hlast
    have hfind : find_last_of file_path "\\/".data = s := by
      simp only [find_last_of, hlast]
    have hns : ¬ s = npos := by
      unfold npos
      omega
    have hafter := lastIndexOf_some_after _ _ _ hlast
    have hp : (s + 1) % SIZE_MOD = s + 1 := Nat.mod_eq_of_lt (by omega)
    obtain ⟨len, hform⟩ :
        ∃ len, nameFromPath file_path = some ((file_path.drop (s + 1)).take len) := by
      simp only [nameFromPath, hfind, if_neg hns, substr, hp]
      rw [if_neg (by omega)]
      exact ⟨_, rfl⟩
    refine ⟨_, hform, ?_, substr_is_infix file_path (s + 1) len⟩
    intro c hc
    exact hmem c (hafter c (List.mem_of_mem_take hc))

/-- C20 at the path `a\b/Foo.cpp`: the group is `Foo`. -/
theorem nameFromPath_group_is_separator_free_witness :
    ∃ group, nameFromPath "a\\b/Foo.cpp".data = some group ∧
      (∀ c ∈ group, c ∉ "\\/".data) ∧
      ∃ before after, "a\\b/Foo.cpp".data = before ++ group ++ after :=
  nameFromPath_group_is_separator_free "a\\b/Foo.cpp".data (by decide) (by decide)

/-! ## `OverrideId::id` takes the first match -/

theorem find?_smallest_key {V : Type} [DecidableEq V] (l : List (Nat × V)) (n : V)
    (e : Nat × V) (hl : KeysAscending l)
    (h : l.find? (fun a => decide (a.2 = n)) = some e) :
    ∀ j, (j, n) ∈ l → e.1 ≤ j := by
  induction l with
  | nil => simp at h
  | cons hd tl ih =>
    unfold KeysAscending at hl ih
    rw [List.pairwise_cons] at hl
    intro j hj
    by_cases hhd : hd.2 = n
    · simp only [List.find?_cons, decide_eq_true hhd, Option.some.injEq] at h
      rw [← h]
      rcases List.mem_cons.1 hj with hj' | hj'
      · rw [← hj']
      · exact le_of_lt (hl.1 (j, n) hj')
    · simp only [List.find?_cons, decide_eq_false hhd] at h
      rcases List.mem_cons.1 hj with hj' | hj'
      · rw [← hj'] at hhd
        exact absurd rfl hhd
      · exact ih hl.2 h j hj'

theorem OverrideId.override_id_smallest (r : OverrideId) (n : CppString)
    (h : ∃ e ∈ r.name_map_.entries, e.2 = n) :
    ∃ i, r.id n = some i ∧ r.name_map_.find i = some n ∧
      ∀ j, r.name_map_.find j = some n → i ≤ j := by
  unfold OverrideId.id
  cases hfind : r.name_map_.entries.find? (fun assignment => decide (assignment.2 = n)) with
  | none =>
    simp only [List.find?_eq_none, decide_eq_true_eq] at hfind
    obtain ⟨e, he, hen⟩ := h
    exact absurd hen (hfind e he)
  | some e =>
    have hmem := List.mem_of_find?_eq_some hfind
    have hname := List.find?_some hfind
    simp only [decide_eq_true_eq] at hname
    obtain ⟨k, v⟩ := e
    simp only at hname
    subst hname
    refine ⟨k, rfl, findEntry_of_mem _ _ _ r.name_map_.ordered hmem, ?_⟩
    intro j hj
    exact find?_smallest_key _ v (k, v) r.name_map_.ordered hfind j (mem_of_findEntry _ _ _ hj)

theorem OverrideId.override_id_zero_iff (r : OverrideId) (n : CppString) :
    r.id n = some 0 ↔ r.name_map_.find 0 = some n := by
  constructor
  · intro h
    unfold OverrideId.id at h
    cases hfind : r.name_map_.entries.find? (fun assignment => decide (assignment.2 = n)) with
    | none =>
      rw [hfind] at h
      exact absurd h (by simp [VISAGE_ASSERT])
    | some e =>
      rw [hfind] at h
      have hmem := List.mem_of_find?_eq_some hfind
      have hname := List.find?_some hfind
      simp only [decide_eq_true_eq] at hname
      simp only [Option.some.injEq] at h
      obtain ⟨k, v⟩ := e
      simp only at hname h
      subst hname h
      exact findEntry_of_mem _ _ _ r.name_map_.ordered hmem
  · intro hkept
    obtain ⟨i, hi, -, hmin⟩ := OverrideId.override_id_smallest r n
      ⟨(0, n), mem_of_findEntry _ _ _ hkept, rfl⟩
    have h0 : i = 0 := Nat.le_zero.1 (hmin 0 hkept)
    rw [hi, h0]

theorem OverrideId.override_zero_after_nextId (r : OverrideId) (a n : CppString)
    (h : r.name_map_.find 0 = some n) :
    (r.nextId a).2.name_map_.find 0 = some n ↔ (r.next_id_ = 0 → a = n) := by
  simp only [OverrideId.nextId]
  by_cases hc : (0 : Nat) = r.next_id_
  · rw [← hc, StdMap.find_assign_self]
    simp
  · rw [StdMap.find_assign_ne _ _ _ _ hc]
    constructor
    · intro _ h0
      exact absurd h0.symm hc
    · intro _
      exact h

theorem OverrideId.override_zero_kept_iff (names : List CppString) (r : OverrideId)
    (hr : r.next_id_ < UINT_MOD) :
    (∀ k, (r.registerAll (names.take k)).2.name_map_.find 0 = some "Global".data) ↔
      (r.name_map_.find 0 = some "Global".data ∧
        ∀ j m, names[j]? = some m → (r.next_id_ + j) % UINT_MOD = 0 → m = "Global".data) := by
  induction names generalizing r with
  | nil =>
    simp only [List.take_nil, OverrideId.registerAll, forall_const]
    constructor
    · intro h
      exact ⟨h, fun j m hj => by simp at hj⟩
    · exact fun h => h.1
  | cons a rest ih =>
    have hr' : (r.nextId a).2.next_id_ < UINT_MOD := Nat.mod_lt _ (by decide)
    have hM : UINT_MOD = 4294967296 := by decide
    constructor
    · intro h
      have h0 := h 0
      simp only [List.take_zero, OverrideId.registerAll] at h0
      have hrest := (ih (r.nextId a).2 hr').1 (fun k => by
        have hk := h (k + 1)
        simpa only [List.take_succ_cons, OverrideId.registerAll] using hk)
      refine ⟨h0, ?_⟩
      intro j m hj hmod
      cases j with
      | zero =>
        simp only [List.getElem?_cons_zero, Option.some.injEq] at hj
        subst hj
        refine (OverrideId.override_zero_after_nextId r a _ h0).1 hrest.1 ?_
        rw [hM] at hr hmod
        omega
      | succ j =>
        simp only [List.getElem?_cons_succ] at hj
        refine hrest.2 j m hj ?_
        simp only [OverrideId.nextId]
        rw [hM] at hmod ⊢
        omega
    · rintro ⟨h0, hall⟩ k
      cases k with
      | zero => simpa only [List.take_zero, OverrideId.registerAll] using h0
      | succ k =>
        simp only [List.take_succ_cons, OverrideId.registerAll]
        refine (ih (r.nextId a).2 hr').2 ⟨?_, ?_⟩ k
        · refine (OverrideId.override_zero_after_nextId r a _ h0).2 ?_
          intro hc
          exact hall 0 a (by simp) (by rw [hc]; decide)
        · intro j m hj hmod
          refine hall (j + 1) m (by simpa using hj) ?_
          simp only [OverrideId.nextId] at hmod
          rw [hM] at hmod ⊢
          omega

/-- C19 (amended): for every state of the `OverrideId` registry and every name
`n` carried by at least one entry, `id(n)` returns the smallest id whose name is
`n`, while `nameIdMap()` maps `n` to the greatest such id. `id("Global")` is `0`
exactly when the entry of id `0` carries the name "Global", and it is `0` after
every initial part of a run of registrations exactly when it is `0` before the
run and every registration made while the counter is `0` (the registration
number `j` with `(next_id_ + j) % 2 ^ 32 = 0`) registers the name "Global". So
it is still `0` after any number of registrations of the name "Global", and
after any registrations that do not bring the counter, at least `1`, past
`2 ^ 32`. -/
theorem OverrideId.id_returns_smallest (r : OverrideId) (n : CppString)
    (hr : r.next_id_ < UINT_MOD) (h : ∃ e ∈ r.name_map_.entries, e.2 = n) :
    (∃ i, r.id n = some i ∧ r.name_map_.find i = some n ∧
        ∀ j, r.name_map_.find j = some n → i ≤ j) ∧
      (∃ i, r.nameIdMap.find n = some i ∧ r.name_map_.find i = some n ∧
        ∀ j, r.name_map_.find j = some n → j ≤ i) ∧
      (r.id "Global".data = some 0 ↔ r.name_map_.find 0 = some "Global".data) ∧
      (∀ names : List CppString,
        (∀ k, (r.registerAll (names.take k)).2.id "Global".data = some 0) ↔
          (r.id "Global".data = some 0 ∧
            ∀ j m, names[j]? = some m → (r.next_id_ + j) % UINT_MOD = 0 →
              m = "Global".data)) ∧
      (∀ names : List CppString, r.id "Global".data = some 0 →
        (∀ m ∈ names, m = "Global".data) →
        (r.registerAll names).2.id "Global".data = some 0) ∧
      (∀ names : List CppString, r.id "Global".data = some 0 →
        1 ≤ r.next_id_ → r.next_id_ + names.length ≤ UINT_MOD →
        (r.registerAll names).2.id "Global".data = some 0) := by
  have hkept : ∀ names : List CppString,
      (∀ k, (r.registerAll (names.take k)).2.id "Global".data = some 0) ↔
        (r.id "Global".data = some 0 ∧
          ∀ j m, names[j]? = some m → (r.next_id_ + j) % UINT_MOD = 0 →
            m = "Global".data) := by
    intro names
    simp only [OverrideId.override_id_zero_iff]
    exact OverrideId.override_zero_kept_iff names r hr
  refine ⟨OverrideId.override_id_smallest r n h, ?_, OverrideId.override_id_zero_iff r _,
    hkept, ?_, ?_⟩
  · obtain ⟨i, hi⟩ := (nameIds_fold_key (fun (v : CppString) => v) r.name_map_.entries n).2 h
    obtain ⟨⟨v, hv, hvn⟩, hmax⟩ :=
      (nameIds_fold (fun (v : CppString) => v) r.name_map_.entries r.name_map_.ordered n i).1 hi
    have hvn' : v = n := hvn
    subst hvn'
    refine ⟨i, hi, findEntry_of_mem _ _ _ r.name_map_.ordered hv, ?_⟩
    intro j hj
    exact hmax j v (mem_of_findEntry _ _ _ hj) rfl
  · intro names h0 hnames
    have hall := (hkept names).2 ⟨h0, fun j m hj _ => hnames m (List.getElem?_mem hj)⟩
    have hlast := hall names.length
    rwa [List.take_length] at hlast
  · intro names h0 h1 hlen
    have hall := (hkept names).2 ⟨h0, fun j m hj hmod => by
      have hj' : j < names.length := by
        rcases Nat.lt_or_ge j names.length with hlt | hge
        · exact hlt
        · rw [List.getElem?_eq_none hge] at hj
          exact absurd hj (by simp)
      have hM : UINT_MOD = 4294967296 := by decide
      rw [hM] at hmod hlen
      omega⟩
    have hlast := hall names.length
    rwa [List.take_length] at hlast

/-- C19 at a concrete input: the registry `twoDarks`, in which "Dark" is
registered under the ids 1 and 3 and the counter is 4, and the name "Dark". -/
theorem OverrideId.id_returns_smallest_witness :
    (∃ i, OverrideId.twoDarks.id "Dark".data = some i ∧
        OverrideId.twoDarks.name_map_.find i = some "Dark".data ∧
        ∀ j, OverrideId.twoDarks.name_map_.find j = some "Dark".data → i ≤ j) ∧
      (∃ i, OverrideId.twoDarks.nameIdMap.find "Dark".data = some i ∧
        OverrideId.twoDarks.name_map_.find i = some "Dark".data ∧
        ∀ j, OverrideId.twoDarks.name_map_.find j = some "Dark".data → j ≤ i) ∧
      (OverrideId.twoDarks.id "Global".data = some 0 ↔
        OverrideId.twoDarks.name_map_.find 0 = some "Global".data) ∧
      (∀ names : List CppString,
        (∀ k, (OverrideId.twoDarks.registerAll (names.take k)).2.id "Global".data = some 0) ↔
          (OverrideId.twoDarks.id "Global".data = some 0 ∧
            ∀ j m, names[j]? = some m →
              (OverrideId.twoDarks.next_id_ + j) % UINT_MOD = 0 → m = "Global".data)) ∧
      (∀ names : List CppString, OverrideId.twoDarks.id "Global".data = some 0 →
        (∀ m ∈ names, m = "Global".data) →
        (OverrideId.twoDarks.registerAll names).2.id "Global".data = some 0) ∧
      (∀ names : List CppString, OverrideId.twoDarks.id "Global".data = some 0 →
        1 ≤ OverrideId.twoDarks.next_id_ →
        OverrideId.twoDarks.next_id_ + names.length ≤ UINT_MOD →
        (OverrideId.twoDarks.registerAll names).2.id "Global".data = some 0) :=
  OverrideId.id_returns_smallest OverrideId.twoDarks "Dark".data (by decide) (by decide)

theorem OverrideId.override_global_moved (l : List (List Char)) (x : List Char)
    (hne : x ≠ "Global".data) (hlen : l.length = UINT_MOD - 1) :
    (OverrideId.fresh.registerAll (l ++ [x, "Global".data])).2.id "Global".data = some 1 := by
  have hzero : (OverrideId.fresh.registerAll l).2.next_id_ = 0 := by
    rw [OverrideId.override_counter l OverrideId.fresh (by decide), hlen]
    decide
  have hone : (0 + 1) % UINT_MOD = 1 := by decide
  rw [OverrideId.override_registerAll_append]
  simp only [OverrideId.registerAll, OverrideId.nextId, hzero, hone]
  generalize (OverrideId.fresh.registerAll l).2.name_map_ = m
  have h1 : ((m.assign 0 x).assign 1 "Global".data).find 1 = some "Global".data :=
    StdMap.find_assign_self _ _ _
  have h0 : ((m.assign 0 x).assign 1 "Global".data).find 0 = some x := by
    rw [StdMap.find_assign_ne _ _ _ _ (by decide)]
    exact StdMap.find_assign_self _ _ _
  obtain ⟨i, hi, hname, hmin⟩ := OverrideId.override_id_smallest
    { next_id_ := (1 + 1) % UINT_MOD,
      name_map_ := (m.assign 0 x).assign 1 "Global".data } "Global".data
    ⟨(1, "Global".data), mem_of_findEntry _ _ _ h1, rfl⟩
  have hle : i ≤ 1 := hmin 1 h1
  have hi0 : i ≠ 0 := by
    intro hi0
    rw [hi0] at hname
    have hname' : ((m.assign 0 x).assign 1 "Global".data).find 0 = some "Global".data := hname
    rw [h0, Option.some.injEq] at hname'
    exact hne hname'
  have hi1 : i = 1 := by omega
  rw [hi, hi1]

/-- C19 fails as stated: on a fresh `OverrideId` registry `id("Global")` is `0`;
the last of the `2 ^ 32` registrations of `x` in `wrapAroundThenGlobal` is made
with the counter at `0` and replaces the name of the id `0`, and after the
registration of the name "Global" that follows, which is issued the id `1`,
`id("Global")` is `1`, not `0`. -/
theorem OverrideId.global_id_moves_after_wraparound :
    OverrideId.fresh.id "Global".data = some 0 ∧
      (OverrideId.fresh.registerAll wrapAroundThenGlobal).2.id "Global".data = some 1 ∧
      (OverrideId.fresh.registerAll wrapAroundThenGlobal).2.id "Global".data ≠ some 0 := by
  have h : (OverrideId.fresh.registerAll wrapAroundThenGlobal).2.id "Global".data = some 1 :=
    OverrideId.override_global_moved (List.replicate (UINT_MOD - 1) "x".data) "x".data
      (by decide) (List.length_replicate _ _)
  refine ⟨by decide, h, ?_⟩
  rw [h]
  decide

/-! ## The count and the key set -/

theorem StdMap.mem_keys_iff {V : Type} (m : StdMap Nat V) (j : Nat) :
    j ∈ m.entries.map Prod.fst ↔ ∃ v, m.find j = some v := by
  constructor
  · intro h
    obtain ⟨e, he, hej⟩ := List.mem_map.1 h
    refine ⟨e.2, findEntry_of_mem _ _ _ m.ordered ?_⟩
    rw [← hej]
    exact he
  · rintro ⟨v, hv⟩
    exact List.mem_map.2 ⟨(j, v), mem_of_findEntry _ _ _ hv, rfl⟩

theorem toInt_small (n : Nat) (h : n < 2 ^ 31) : toInt (n % UINT_MOD) = (n : Int) := by
  have hM : UINT_MOD = 4294967296 := by decide
  rw [hM, Nat.mod_eq_of_lt (by omega)]
  unfold toInt
  rw [if_pos h]

theorem ValueId.value_counter
    (regs : List (CppString × CppString × Nat × ValueId.ScaleType × Bool)) (r : ValueId)
    (hr : r.next_id_ < UINT_MOD) (hpaths : ∀ a ∈ regs, a.2.1 ≠ []) :
    ∃ ids r', r.registerAll regs = some (ids, r') ∧
      r'.next_id_ = (r.next_id_ + regs.length) % UINT_MOD := by
  induction regs generalizing r with
  | nil => exact ⟨[], r, rfl, (Nat.mod_eq_of_lt hr).symm⟩
  | cons a rest ih =>
    obtain ⟨name, file_path, default_value, scale_type, round_to_pixel⟩ := a
    obtain ⟨group, -, hnext⟩ := ValueId.value_nextId_nonempty r name file_path default_value
      scale_type round_to_pixel (hpaths _ (List.mem_cons_self _ _))
    obtain ⟨ids, r', hr', hc⟩ := ih
      { next_id_ := (r.next_id_ + 1) % UINT_MOD,
        info_map_ := r.info_map_.assign r.next_id_
          ⟨name, group, default_value, scale_type, round_to_pixel⟩ }
      (Nat.mod_lt _ (by decide)) (fun a ha => hpaths a (List.mem_cons_of_mem _ ha))
    refine ⟨r.next_id_ :: ids, r', ?_, ?_⟩
    · simp only [ValueId.registerAll, hnext, hr']
    · rw [hc]
      simp only [List.length_cons, Nat.mod_add_mod]
      congr 1
      omega

theorem ColorId.color_count_and_keys (regs : List (CppString × CppString × Nat))
    (hN : regs.length ≤ UINT_MOD) (hpaths : ∀ a ∈ regs, a.2.1 ≠ []) :
    ∃ ids r, ColorId.fresh.registerAll regs = some (ids, r) ∧
      (∀ j, j ∈ r.info_map_.entries.map Prod.fst ↔ j < regs.length) ∧
      (regs.length < 2 ^ 31 → r.numColorIds = (regs.length : Int)) := by
  obtain ⟨ids, r, hr, hout, hin⟩ := ColorId.color_registerAll_entries regs ColorId.fresh hpaths
    (by simp only [ColorId.fresh]; omega)
  obtain ⟨ids', r1, hr1, hcnt⟩ := ColorId.counter_after regs hN hpaths
  have hsame : r1 = r := by
    rw [hr] at hr1
    exact (Prod.mk.inj (Option.some.inj hr1)).2.symm
  subst hsame
  simp only [ColorId.fresh, Nat.zero_add] at hout hin
  refine ⟨ids, r1, hr, ?_, ?_⟩
  · intro j
    rw [StdMap.mem_keys_iff]
    constructor
    · rintro ⟨v, hv⟩
      by_contra hj
      have hnone : r1.info_map_.find j = none := by
        rw [hout j (Or.inr (not_lt.1 hj))]
        rfl
      rw [hnone] at hv
      exact absurd hv (by simp)
    · intro hj
      obtain ⟨g, -, hfind⟩ := hin j regs[j] (List.getElem?_eq_getElem hj)
      exact ⟨_, hfind⟩
  · intro hsmall
    simp only [ColorId.numColorIds, hcnt]
    exact toInt_small _ hsmall

theorem ValueId.value_count_and_keys
    (regs : List (CppString × CppString × Nat × ValueId.ScaleType × Bool))
    (hN : regs.length ≤ UINT_MOD) (hpaths : ∀ a ∈ regs, a.2.1 ≠ []) :
    ∃ ids r, ValueId.fresh.registerAll regs = some (ids, r) ∧
      (∀ j, j ∈ r.info_map_.entries.map Prod.fst ↔ j < regs.length) ∧
      (regs.length < 2 ^ 31 → r.numValueIds = (regs.length : Int)) := by
  obtain ⟨ids, r, hr, hout, hin⟩ := ValueId.value_registerAll_entries regs ValueId.fresh hpaths
    (by simp only [ValueId.fresh]; omega)
  obtain ⟨ids', r1, hr1, hcnt⟩ := ValueId.value_counter regs ValueId.fresh (by decide) hpaths
  have hsame : r1 = r := by
    rw [hr] at hr1
    exact (Prod.mk.inj (Option.some.inj hr1)).2.symm
  subst hsame
  simp only [ValueId.fresh, Nat.zero_add] at hout hin hcnt
  refine ⟨ids, r1, hr, ?_, ?_⟩
  · intro j
    rw [StdMap.mem_keys_iff]
    constructor
    · rintro ⟨v, hv⟩
      by_contra hj
      have hnone : r1.info_map_.find j = none := by
        rw [hout j (Or.inr (not_lt.1 hj))]
        rfl
      rw [hnone] at hv
      exact absurd hv (by simp)
    · intro hj
      obtain ⟨g, -, hfind⟩ := hin j regs[j] (List.getElem?_eq_getElem hj)
      exact ⟨_, hfind⟩
  · intro hsmall
    simp only [ValueId.numValueIds, hcnt]
    exact toInt_small _ hsmall

theorem OverrideId.override_count_and_keys (names : List CppString)
    (hN : names.length < UINT_MOD) :
    (∀ j, j ∈ (OverrideId.fresh.registerAll names).2.name_map_.entries.map Prod.fst ↔
        j < names.length + 1) ∧
      (names.length + 1 < 2 ^ 31 →
        (OverrideId.fresh.registerAll names).2.numOverrideIds = (names.length : Int) + 1) := by
  obtain ⟨hout, hin⟩ := OverrideId.override_registerAll_entries names OverrideId.fresh
    (by simp only [OverrideId.fresh]; omega)
  have hcnt := OverrideId.override_counter names OverrideId.fresh (by decide)
  have hone : OverrideId.fresh.next_id_ = 1 := rfl
  rw [hone] at hout hin hcnt
  refine ⟨?_, ?_⟩
  · intro j
    rw [StdMap.mem_keys_iff]
    constructor
    · rintro ⟨v, hv⟩
      by_contra hj
      have hnone : (OverrideId.fresh.registerAll names).2.name_map_.find j = none := by
        rw [hout j (Or.inr (by omega))]
        have h0 : j ≠ 0 := by omega
        simp [OverrideId.fresh, StdMap.find, StdMap.assign, StdMap.empty, insertEntry,
          findEntry, h0]
      rw [hnone] at hv
      exact absurd hv (by simp)
    · intro hj
      cases j with
      | zero =>
        refine ⟨"Global".data, ?_⟩
        rw [hout 0 (Or.inl (by omega))]
        decide
      | succ k =>
        have hk : k < names.length := by omega
        have hfind := hin k names[k] (List.getElem?_eq_getElem hk)
        rw [Nat.add_comm] at hfind
        exact ⟨_, hfind⟩
  · intro hsmall
    simp only [OverrideId.numOverrideIds, hcnt]
    rw [Nat.add_comm, toInt_small _ hsmall]
    push_cast
    ring

/-- C11 (amended): after `N` registrations on a fresh registry that do not wrap
the 32-bit counter (`N <= 2 ^ 32` for `ColorId` and `ValueId`, with non-empty
paths, and `N < 2 ^ 32` for `OverrideId`) the key set of the id map is exactly
`{0, ..., N-1}`, for `OverrideId` `{0, ..., N}`; and as long as the number of
ids fits an `int` (`N < 2 ^ 31`, for `OverrideId` `N + 1 < 2 ^ 31`),
`numColorIds() == N`, `numValueIds() == N` and `numOverrideIds() == N + 1`. -/
theorem count_and_dense_keys
    (colors : List (CppString × CppString × Nat))
    (values : List (CppString × CppString × Nat × ValueId.ScaleType × Bool))
    (names : List CppString)
    (hc : colors.length ≤ UINT_MOD) (hcp : ∀ a ∈ colors, a.2.1 ≠ [])
    (hv : values.length ≤ UINT_MOD) (hvp : ∀ a ∈ values, a.2.1 ≠ [])
    (hn : names.length < UINT_MOD) :
    (∃ ids r, ColorId.fresh.registerAll colors = some (ids, r) ∧
        (∀ j, j ∈ r.info_map_.entries.map Prod.fst ↔ j < colors.length) ∧
        (colors.length < 2 ^ 31 → r.numColorIds = (colors.length : Int))) ∧
      (∃ ids r, ValueId.fresh.registerAll values = some (ids, r) ∧
        (∀ j, j ∈ r.info_map_.entries.map Prod.fst ↔ j < values.length) ∧
        (values.length < 2 ^ 31 → r.numValueIds = (values.length : Int))) ∧
      ((∀ j, j ∈ (OverrideId.fresh.registerAll names).2.name_map_.entries.map Prod.fst ↔
          j < names.length + 1) ∧
        (names.length + 1 < 2 ^ 31 →
          (OverrideId.fresh.registerAll names).2.numOverrideIds = (names.length : Int) + 1)) :=
  ⟨ColorId.color_count_and_keys colors hc hcp, ValueId.value_count_and_keys values hv hvp,
    OverrideId.override_count_and_keys names hn⟩

/-- C11 at a concrete input: three colours, two values and two overrides. -/
theorem count_and_dense_keys_witness :
    (∃ ids r, ColorId.fresh.registerAll
        [("Red".data, "colors/Red.h".data, 0xFFFF0000),
         ("Blue".data, "colors/Blue.h".data, 0xFF0000FF),
         ("Red".data, "other/Red.h".data, 0xFFEE0000)] = some (ids, r) ∧
        (∀ j, j ∈ r.info_map_.entries.map Prod.fst ↔ j < 3) ∧
        ((3 : Nat) < 2 ^ 31 → r.numColorIds = ((3 : Nat) : Int))) ∧
      (∃ ids r, ValueId.fresh.registerAll
        [("Gap".data, "ui/Knob.cpp".data, 0x41200000, ValueId.ScaleType.kScaledDpi, true),
         ("Gap".data, "ui/Bar.cpp".data, 0x3F000000, ValueId.ScaleType.kConstant, false)]
          = some (ids, r) ∧
        (∀ j, j ∈ r.info_map_.entries.map Prod.fst ↔ j < 2) ∧
        ((2 : Nat) < 2 ^ 31 → r.numValueIds = ((2 : Nat) : Int))) ∧
      ((∀ j, j ∈ (OverrideId.fresh.registerAll
            ["Dark".data, "Light".data]).2.name_map_.entries.map Prod.fst ↔ j < 2 + 1) ∧
        (2 + 1 < 2 ^ 31 →
          (OverrideId.fresh.registerAll ["Dark".data, "Light".data]).2.numOverrideIds
            = ((2 : Nat) : Int) + 1)) :=
  count_and_dense_keys
    [("Red".data, "colors/Red.h".data, 0xFFFF0000),
     ("Blue".data, "colors/Blue.h".data, 0xFF0000FF),
     ("Red".data, "other/Red.h".data, 0xFFEE0000)]
    [("Gap".data, "ui/Knob.cpp".data, 0x41200000, ValueId.ScaleType.kScaledDpi, true),
     ("Gap".data, "ui/Bar.cpp".data, 0x3F000000, ValueId.ScaleType.kConstant, false)]
    ["Dark".data, "Light".data]
    (by decide) (by decide) (by decide) (by decide) (by decide)

theorem toInt_at_half_range : toInt ((INT_MAX + 1) % UINT_MOD) = -2147483648 := by
  decide

theorem ColorId.count_after_half_range (regs : List (CppString × CppString × Nat))
    (hlen : regs.length = INT_MAX + 1) (hpaths : ∀ a ∈ regs, a.2.1 ≠ []) :
    ∃ ids r, ColorId.fresh.registerAll regs = some (ids, r) ∧
      regs.length = 2147483648 ∧ r.numColorIds = -2147483648 ∧
      r.numColorIds ≠ (regs.length : Int) := by
  obtain ⟨ids, r, hr, hc⟩ := ColorId.counter_after regs (by rw [hlen]; decide) hpaths
  rw [hlen] at hc
  have hnum : r.numColorIds = -2147483648 := by
    simp only [ColorId.numColorIds, hc]
    exact toInt_at_half_range
  have hlen' : regs.length = 2147483648 := by
    rw [hlen]
    decide
  refine ⟨ids, r, hr, hlen', hnum, ?_⟩
  rw [hnum, hlen']
  decide

/-- C11 fails as stated: after the `N = 2 ^ 31` registrations of
`halfRangeColors` on a fresh `ColorId` registry, all successful, `numColorIds()`
is `-2147483648`, not `N`. -/
theorem ColorId.count_negative_at_half_range :
    ∃ ids r, ColorId.fresh.registerAll ColorId.halfRangeColors = some (ids, r) ∧
      ColorId.halfRangeColors.length = 2147483648 ∧ r.numColorIds = -2147483648 ∧
      r.numColorIds ≠ (ColorId.halfRangeColors.length : Int) :=
  ColorId.count_after_half_range
    (List.replicate (INT_MAX + 1) ("a".data, "d/a.h".data, (0 : Nat)))
    (List.length_replicate _ _)
    (fun a ha => by rw [List.eq_of_mem_replicate ha]; decide)

/-! ## What `ValueId` stores -/

theorem ValueId.value_info_of_find (r : ValueId) (k : Nat) (e : ValueId.ValueIdInfo)
    (h : r.info_map_.find k = some e) :
    r.info k = (e, r) ∧ r.defaultValue k = (e.default_value, r) ∧
      r.groupName k = (e.group, r) ∧ r.name k = (e.name, r) := by
  simp [ValueId.info, ValueId.defaultValue, ValueId.groupName, ValueId.name,
    StdMap.index_of_find _ _ _ h]

theorem ValueId.value_registerAll_frame
    (regs : List (CppString × CppString × Nat × ValueId.ScaleType × Bool)) (r : ValueId)
    (j : Nat) (hr : r.next_id_ < UINT_MOD) (hpaths : ∀ a ∈ regs, a.2.1 ≠ [])
    (hj : ∀ t, t < regs.length → (r.next_id_ + t) % UINT_MOD ≠ j) :
    ∃ ids r', r.registerAll regs = some (ids, r') ∧
      r'.info_map_.find j = r.info_map_.find j := by
  induction regs generalizing r with
  | nil => exact ⟨[], r, rfl, rfl⟩
  | cons a rest ih =>
    obtain ⟨name, file_path, default_value, scale_type, round_to_pixel⟩ := a
    obtain ⟨group, -, hnext⟩ := ValueId.value_nextId_nonempty r name file_path default_value
      scale_type round_to_pixel (hpaths _ (List.mem_cons_self _ _))
    have hkey : j ≠ r.next_id_ := by
      have h0 := hj 0 (by simp)
      rw [Nat.add_zero, Nat.mod_eq_of_lt hr] at h0
      exact fun h => h0 h.symm
    obtain ⟨ids, r', hr', hfind⟩ := ih
      { next_id_ := (r.next_id_ + 1) % UINT_MOD,
        info_map_ := r.info_map_.assign r.next_id_
          ⟨name, group, default_value, scale_type, round_to_pixel⟩ }
      (Nat.mod_lt _ (by decide)) (fun a ha => hpaths a (List.mem_cons_of_mem _ ha))
      (by
        intro t ht
        have h1 := hj (t + 1) (by simp only [List.length_cons]; omega)
        simp only [Nat.mod_add_mod]
        rw [show r.next_id_ + 1 + t = r.next_id_ + (t + 1) by omega]
        exact h1)
    refine ⟨r.next_id_ :: ids, r', ?_, ?_⟩
    · simp only [ValueId.registerAll, hnext, hr']
    · rw [hfind]
      exact StdMap.find_assign_ne _ _ _ _ hkey

/-- C12 (amended): the `ValueId` registry performs no scaling or rounding. For
every call `ValueId::nextId(name, path, v, scaleType, roundToPixel)` with a
non-empty path, returning the id `i`, and after any later registrations, fewer
than `2 ^ 32` of them (so that the counter does not come back to `i`), `info(i)`
is exactly `{name, nameFromPath(path), v, scaleType, roundToPixel}` and
`defaultValue(i)` is `v`, for every scale type and both values of the flag. -/
theorem ValueId.info_is_what_was_registered (r : ValueId) (name file_path : CppString)
    (default_value : Nat) (scale_type : ValueId.ScaleType) (round_to_pixel : Bool)
    (later : List (CppString × CppString × Nat × ValueId.ScaleType × Bool))
    (hpath : file_path ≠ [])
    (hlater : ∀ a ∈ later, a.2.1 ≠ []) (hN : later.length < UINT_MOD) :
    ∃ group i r1 ids r2, nameFromPath file_path = some group ∧
      r.nextId name file_path default_value scale_type round_to_pixel = some (i, r1) ∧
      r1.registerAll later = some (ids, r2) ∧
      r2.info i = (⟨name, group, default_value, scale_type, round_to_pixel⟩, r2) ∧
      r2.defaultValue i = (default_value, r2) := by
  obtain ⟨group, hgroup, hnext⟩ := ValueId.value_nextId_nonempty r name file_path
    default_value scale_type round_to_pixel hpath
  have hM : UINT_MOD = 4294967296 := by decide
  obtain ⟨ids, r2, hr2, hfind⟩ := ValueId.value_registerAll_frame later
    { next_id_ := (r.next_id_ + 1) % UINT_MOD,
      info_map_ := r.info_map_.assign r.next_id_
        ⟨name, group, default_value, scale_type, round_to_pixel⟩ }
    r.next_id_ (Nat.mod_lt _ (by decide)) hlater
    (by
      intro t ht
      simp only [hM] at hN ⊢
      omega)
  simp only at hfind
  rw [StdMap.find_assign_self] at hfind
  obtain ⟨h1, h2, -, -⟩ := ValueId.value_info_of_find r2 r.next_id_ _ hfind
  exact ⟨group, r.next_id_, _, ids, r2, hgroup, hnext, hr2, h1, h2⟩

/-- C12 at a concrete input: a value with the default `10.0f`, scaled by width
and rounded, followed by two later registrations. -/
theorem ValueId.info_is_what_was_registered_witness :
    ∃ group i r1 ids r2, nameFromPath "ui/Knob.cpp".data = some group ∧
      ValueId.fresh.nextId "Width".data "ui/Knob.cpp".data 0x41200000
        ValueId.ScaleType.kScaledWidth true = some (i, r1) ∧
      r1.registerAll
        [("Gap".data, "ui/Knob.cpp".data, 0x3F000000, ValueId.ScaleType.kScaledDpi, false),
         ("Width".data, "ui/Bar.cpp".data, 0x40000000, ValueId.ScaleType.kConstant, false)]
        = some (ids, r2) ∧
      r2.info i
        = (⟨"Width".data, group, 0x41200000, ValueId.ScaleType.kScaledWidth, true⟩, r2) ∧
      r2.defaultValue i = (0x41200000, r2) :=
  ValueId.info_is_what_was_registered ValueId.fresh "Width".data "ui/Knob.cpp".data 0x41200000
    ValueId.ScaleType.kScaledWidth true
    [("Gap".data, "ui/Knob.cpp".data, 0x3F000000, ValueId.ScaleType.kScaledDpi, false),
     ("Width".data, "ui/Bar.cpp".data, 0x40000000, ValueId.ScaleType.kConstant, false)]
    (by decide) (by decide) (by decide)

theorem ValueId.value_registerAll_append
    (l1 l2 : List (CppString × CppString × Nat × ValueId.ScaleType × Bool))
    (r r1 : ValueId) (ids1 : List Nat) (h1 : r.registerAll l1 = some (ids1, r1)) :
    r.registerAll (l1 ++ l2) = (r1.registerAll l2).map (fun q => (ids1 ++ q.1, q.2)) := by
  induction l1 generalizing r ids1 with
  | nil =>
    simp only [ValueId.registerAll, Option.some.injEq, Prod.mk.injEq] at h1
    obtain ⟨h2, h3⟩ := h1
    subst h2 h3
    cases h : r.registerAll l2 <;> simp [h]
  | cons a rest ih =>
    obtain ⟨name, file_path, default_value, scale_type, round_to_pixel⟩ := a
    rw [List.cons_append]
    simp only [ValueId.registerAll] at h1 ⊢
    cases hn : r.nextId name file_path default_value scale_type round_to_pixel with
    | none => simp [hn] at h1
    | some p =>
      obtain ⟨i, r'⟩ := p
      simp only [hn] at h1 ⊢
      cases hr : r'.registerAll rest with
      | none => simp [hr] at h1
      | some q =>
        obtain ⟨ids, r''⟩ := q
        simp only [hr, Option.some.injEq, Prod.mk.injEq] at h1
        obtain ⟨h2, h3⟩ := h1
        subst h2 h3
        rw [ih r' ids hr]
        cases h : r''.registerAll l2 <;> simp [h]

theorem ValueId.value_later_overwrites
    (l : List (CppString × CppString × Nat × ValueId.ScaleType × Bool))
    (hlen : l.length = UINT_MOD - 1) (hpaths : ∀ a ∈ l, a.2.1 ≠ []) :
    ∃ i r1 ids r2,
      ValueId.fresh.nextId "a".data "d/a.h".data 0x3F800000 ValueId.ScaleType.kConstant false
        = some (i, r1) ∧
      r1.registerAll
        (l ++ [("b".data, "d/b.h".data, 0x40000000, ValueId.ScaleType.kScaledDpi, true)])
        = some (ids, r2) ∧
      (r2.defaultValue i).1 = 0x40000000 ∧
      (r2.info i).1.scale_type = ValueId.ScaleType.kScaledDpi ∧
      (r2.info i).1.round_to_pixel = true := by
  obtain ⟨g, -, hnext⟩ := ValueId.value_nextId_nonempty ValueId.fresh "a".data "d/a.h".data
    0x3F800000 ValueId.ScaleType.kConstant false (by decide)
  obtain ⟨ids1, r', hr', hcnt⟩ := ValueId.value_counter l
    { next_id_ := (ValueId.fresh.next_id_ + 1) % UINT_MOD,
      info_map_ := ValueId.fresh.info_map_.assign ValueId.fresh.next_id_
        ⟨"a".data, g, 0x3F800000, ValueId.ScaleType.kConstant, false⟩ }
    (Nat.mod_lt _ (by decide)) hpaths
  have hzero : r'.next_id_ = 0 := by
    rw [hcnt, hlen]
    simp only [ValueId.fresh]
    decide
  obtain ⟨g', -, hlast⟩ := ValueId.value_nextId_nonempty r' "b".data "d/b.h".data
    0x40000000 ValueId.ScaleType.kScaledDpi true (by decide)
  have hone : r'.registerAll
      [("b".data, "d/b.h".data, 0x40000000, ValueId.ScaleType.kScaledDpi, true)]
      = some ([r'.next_id_],
        { next_id_ := (r'.next_id_ + 1) % UINT_MOD,
          info_map_ := r'.info_map_.assign r'.next_id_
            ⟨"b".data, g', 0x40000000, ValueId.ScaleType.kScaledDpi, true⟩ }) := by
    simp only [ValueId.registerAll, hlast]
  have hfind := StdMap.find_assign_self r'.info_map_ r'.next_id_
    (⟨"b".data, g', 0x40000000, ValueId.ScaleType.kScaledDpi, true⟩ : ValueId.ValueIdInfo)
  rw [hzero] at hfind
  obtain ⟨h1, h2, -, -⟩ := ValueId.value_info_of_find
    { next_id_ := (r'.next_id_ + 1) % UINT_MOD,
      info_map_ := r'.info_map_.assign r'.next_id_
        ⟨"b".data, g', 0x40000000, ValueId.ScaleType.kScaledDpi, true⟩ } 0 _
    (by rw [hzero]; exact hfind)
  refine ⟨ValueId.fresh.next_id_, _, _, _, hnext,
    (ValueId.value_registerAll_append _ _ _ _ _ hr').trans (congrArg (Option.map _) hone),
    ?_, ?_, ?_⟩
  · simp only [Option.map_some']
    show (ValueId.defaultValue _ 0).1 = 0x40000000
    rw [h2]
  · simp only [Option.map_some']
    show (ValueId.info _ 0).1.scale_type = ValueId.ScaleType.kScaledDpi
    rw [h1]
  · simp only [Option.map_some']
    show (ValueId.info _ 0).1.round_to_pixel = true
    rw [h1]

/-- C12 fails as stated: on a fresh registry the value `a` is registered with
the default `1.0f`, `kConstant` and no rounding, and gets an id `i`; after the
`2 ^ 32` later registrations of `wrapAroundValues` the counter has come back to
`i`, and `defaultValue(i)` is `2.0f`, with `kScaledDpi` and rounding. -/
theorem ValueId.info_overwritten_by_later_registrations :
    ∃ i r1 ids r2,
      ValueId.fresh.nextId "a".data "d/a.h".data 0x3F800000 ValueId.ScaleType.kConstant false
        = some (i, r1) ∧
      r1.registerAll ValueId.wrapAroundValues = some (ids, r2) ∧
      (r2.defaultValue i).1 = 0x40000000 ∧
      (r2.info i).1.scale_type = ValueId.ScaleType.kScaledDpi ∧
      (r2.info i).1.round_to_pixel = true :=
  ValueId.value_later_overwrites
    (List.replicate (UINT_MOD - 1)
      ("b".data, "d/b.h".data, 0x40000000, ValueId.ScaleType.kScaledDpi, true))
    (List.length_replicate _ _)
    (fun a ha => by rw [List.eq_of_mem_replicate ha]; decide)

/-! ## Whether registration can fail -/

theorem ColorId.color_next_is_fresh (regs : List (CppString × CppString × Nat))
    (name file_path : CppString) (default_color : Nat)
    (hN : regs.length < UINT_MOD) (hpaths : ∀ a ∈ regs, a.2.1 ≠ [])
    (hpath : file_path ≠ []) :
    ∃ ids r i r', ColorId.fresh.registerAll regs = some (ids, r) ∧
      r.nextId name file_path default_color = some (i, r') ∧ i ∉ ids := by
  obtain ⟨r, hr, -⟩ := ColorId.color_registerAll_ids regs ColorId.fresh hpaths
    (by simp only [ColorId.fresh]; omega)
  obtain ⟨ids', r1, hr1, hcnt⟩ := ColorId.counter_after regs (le_of_lt hN) hpaths
  have hsame : r1 = r := by
    rw [hr] at hr1
    exact (Prod.mk.inj (Option.some.inj hr1)).2.symm
  subst hsame
  obtain ⟨g, -, hnext⟩ := ColorId.color_nextId_nonempty r1 name file_path default_color hpath
  refine ⟨_, r1, _, _, hr, hnext, ?_⟩
  rw [hcnt, Nat.mod_eq_of_lt hN, List.mem_range'_1]
  simp [ColorId.fresh]

theorem ValueId.value_next_is_fresh
    (regs : List (CppString × CppString × Nat × ValueId.ScaleType × Bool))
    (name file_path : CppString) (default_value : Nat) (scale_type : ValueId.ScaleType)
    (round_to_pixel : Bool)
    (hN : regs.length < UINT_MOD) (hpaths : ∀ a ∈ regs, a.2.1 ≠ [])
    (hpath : file_path ≠ []) :
    ∃ ids r i r', ValueId.fresh.registerAll regs = some (ids, r) ∧
      r.nextId name file_path default_value scale_type round_to_pixel = some (i, r') ∧
      i ∉ ids := by
  obtain ⟨r, hr, -⟩ := ValueId.value_registerAll_ids regs ValueId.fresh hpaths
    (by simp only [ValueId.fresh]; omega)
  obtain ⟨ids', r1, hr1, hcnt⟩ := ValueId.value_counter regs ValueId.fresh (by decide) hpaths
  have hsame : r1 = r := by
    rw [hr] at hr1
    exact (Prod.mk.inj (Option.some.inj hr1)).2.symm
  subst hsame
  obtain ⟨g, -, hnext⟩ := ValueId.value_nextId_nonempty r1 name file_path default_value
    scale_type round_to_pixel hpath
  refine ⟨_, r1, _, _, hr, hnext, ?_⟩
  rw [hcnt, List.mem_range'_1]
  simp only [ValueId.fresh, Nat.zero_add, Nat.mod_eq_of_lt hN]
  omega

theorem OverrideId.override_next_is_fresh (names : List CppString) (name : CppString)
    (hN : names.length + 1 < UINT_MOD) :
    ((OverrideId.fresh.registerAll names).2.nextId name).1
        ∉ 0 :: (OverrideId.fresh.registerAll names).1 := by
  have hids := OverrideId.override_registerAll_ids names OverrideId.fresh
    (by simp only [OverrideId.fresh]; omega)
  have hcnt := OverrideId.override_counter names OverrideId.fresh (by decide)
  have hone : OverrideId.fresh.next_id_ = 1 := rfl
  rw [hone] at hids hcnt
  rw [hids]
  simp only [OverrideId.nextId, hcnt, List.mem_cons, List.mem_range'_1, not_or]
  rw [Nat.mod_eq_of_lt (by omega)]
  omega

/-- C13 (amended): in every registry state and for every argument tuple with a
non-empty source path, `ColorId::nextId` and `ValueId::nextId` succeed and
return the counter `next_id_`, and so does `OverrideId::nextId` for every name;
after fewer than `2 ^ 32` registrations on a fresh registry (for `OverrideId`,
counting the seeded id `0`) the id returned was not issued before. -/
theorem nextId_succeeds_with_fresh_id (c : ColorId) (v : ValueId) (o : OverrideId)
    (name file_path : CppString) (default_color default_value : Nat)
    (scale_type : ValueId.ScaleType) (round_to_pixel : Bool)
    (colors : List (CppString × CppString × Nat))
    (values : List (CppString × CppString × Nat × ValueId.ScaleType × Bool))
    (names : List CppString)
    (hpath : file_path ≠ [])
    (hc : colors.length < UINT_MOD) (hcp : ∀ a ∈ colors, a.2.1 ≠ [])
    (hv : values.length < UINT_MOD) (hvp : ∀ a ∈ values, a.2.1 ≠ [])
    (hn : names.length + 1 < UINT_MOD) :
    ((∃ c', c.nextId name file_path default_color = some (c.next_id_, c')) ∧
        (∃ v', v.nextId name file_path default_value scale_type round_to_pixel
          = some (v.next_id_, v')) ∧
        (o.nextId name).1 = o.next_id_) ∧
      (∃ ids r i r', ColorId.fresh.registerAll colors = some (ids, r) ∧
        r.nextId name file_path default_color = some (i, r') ∧ i ∉ ids) ∧
      (∃ ids r i r', ValueId.fresh.registerAll values = some (ids, r) ∧
        r.nextId name file_path default_value scale_type round_to_pixel = some (i, r') ∧
        i ∉ ids) ∧
      ((OverrideId.fresh.registerAll names).2.nextId name).1
        ∉ 0 :: (OverrideId.fresh.registerAll names).1 := by
  refine ⟨⟨?_, ?_, rfl⟩,
    ColorId.color_next_is_fresh colors name file_path default_color hc hcp hpath,
    ValueId.value_next_is_fresh values name file_path default_value scale_type
    round_to_pixel hv hvp hpath, OverrideId.override_next_is_fresh names name hn⟩
  · obtain ⟨g, -, h⟩ := ColorId.color_nextId_nonempty c name file_path default_color hpath
    exact ⟨_, h⟩
  · obtain ⟨g, -, h⟩ := ValueId.value_nextId_nonempty v name file_path default_value
      scale_type round_to_pixel hpath
    exact ⟨_, h⟩

/-- C13 at a concrete input: a third colour, a third value and a third override
after two registrations each. -/
theorem nextId_succeeds_with_fresh_id_witness :
    ((∃ c', ColorId.fresh.nextId "Green".data "colors/Green.h".data 0xFF00FF00
          = some (ColorId.fresh.next_id_, c')) ∧
        (∃ v', ValueId.fresh.nextId "Green".data "colors/Green.h".data 0x41200000
          ValueId.ScaleType.kScaledHeight false = some (ValueId.fresh.next_id_, v')) ∧
        (OverrideId.fresh.nextId "Green".data).1 = OverrideId.fresh.next_id_) ∧
      (∃ ids r i r', ColorId.fresh.registerAll
          [("Red".data, "colors/Red.h".data, 0xFFFF0000),
           ("Blue".data, "colors/Blue.h".data, 0xFF0000FF)] = some (ids, r) ∧
        r.nextId "Green".data "colors/Green.h".data 0xFF00FF00 = some (i, r') ∧ i ∉ ids) ∧
      (∃ ids r i r', ValueId.fresh.registerAll
          [("Gap".data, "ui/Knob.cpp".data, 0x41200000, ValueId.ScaleType.kScaledDpi, true),
           ("Gap".data, "ui/Bar.cpp".data, 0x3F000000, ValueId.ScaleType.kConstant, false)]
          = some (ids, r) ∧
        r.nextId "Green".data "colors/Green.h".data 0x41200000
          ValueId.ScaleType.kScaledHeight false = some (i, r') ∧
        i ∉ ids) ∧
      ((OverrideId.fresh.registerAll ["Dark".data, "Light".data]).2.nextId "Green".data).1
        ∉ 0 :: (OverrideId.fresh.registerAll ["Dark".data, "Light".data]).1 :=
  nextId_succeeds_with_fresh_id ColorId.fresh ValueId.fresh OverrideId.fresh
    "Green".data "colors/Green.h".data 0xFF00FF00 0x41200000
    ValueId.ScaleType.kScaledHeight false
    [("Red".data, "colors/Red.h".data, 0xFFFF0000),
     ("Blue".data, "colors/Blue.h".data, 0xFF0000FF)]
    [("Gap".data, "ui/Knob.cpp".data, 0x41200000, ValueId.ScaleType.kScaledDpi, true),
     ("Gap".data, "ui/Bar.cpp".data, 0x3F000000, ValueId.ScaleType.kConstant, false)]
    ["Dark".data, "Light".data]
    (by decide) (by decide) (by decide) (by decide) (by decide) (by decide)

theorem ColorId.color_id_reissued (regs : List (CppString × CppString × Nat))
    (hlen : regs.length = UINT_MOD) (hpaths : ∀ a ∈ regs, a.2.1 ≠ []) :
    ∃ ids r i r', ColorId.fresh.registerAll regs = some (ids, r) ∧
      r.nextId "b".data "d/b.h".data 1 = some (i, r') ∧ i = 0 ∧ i ∈ ids := by
  obtain ⟨r, hr, -⟩ := ColorId.color_registerAll_ids regs ColorId.fresh hpaths
    (by simp only [ColorId.fresh]; omega)
  obtain ⟨ids', r1, hr1, hzero⟩ := ColorId.counter_wraps regs hlen hpaths
  have hsame : r1 = r := by
    rw [hr] at hr1
    exact (Prod.mk.inj (Option.some.inj hr1)).2.symm
  subst hsame
  obtain ⟨g, -, hnext⟩ := ColorId.color_nextId_nonempty r1 "b".data "d/b.h".data 1 (by decide)
  refine ⟨_, r1, _, _, hr, hnext, hzero, ?_⟩
  rw [hzero, hlen, List.mem_range'_1]
  exact ⟨Nat.zero_le _, by decide⟩

/-- C13 fails as stated. After the `2 ^ 32` registrations of `fullRangeColors`
on a fresh `ColorId` registry a further `nextId` returns the id `0`, which was
issued before. And with the empty string as source path, `ColorId::nextId` and
`ValueId::nextId` do not succeed: `nameFromPath` throws. -/
theorem nextId_reissues_or_throws :
    (∃ ids r i r', ColorId.fresh.registerAll ColorId.fullRangeColors = some (ids, r) ∧
        r.nextId "b".data "d/b.h".data 1 = some (i, r') ∧ i = 0 ∧ i ∈ ids) ∧
      ColorId.fresh.nextId "Red".data "".data 0xFFFF0000 = none ∧
      ValueId.fresh.nextId "Width".data "".data 0x41200000 ValueId.ScaleType.kScaledDpi true
        = none :=
  ⟨ColorId.color_id_reissued (List.replicate UINT_MOD ("a".data, "d/a.h".data, (0 : Nat)))
      (List.length_replicate _ _)
      (fun a ha => by rw [List.eq_of_mem_replicate ha]; decide),
    rfl, rfl⟩

/-! ## Accessors on an id that is not a key -/

theorem StdMap.index_of_miss {K V : Type} [LinearOrder K] [Inhabited V] (m : StdMap K V)
    (k : K) (h : m.find k = none) : m.index k = (default, m.assign k default) := by
  simp [StdMap.index, h]

theorem ColorId.color_accessors_miss (r : ColorId) (k : Nat)
    (h : r.info_map_.find k = none) :
    r.defaultColor k = (0, { r with info_map_ := r.info_map_.assign k default }) ∧
      r.groupName k = ([], { r with info_map_ := r.info_map_.assign k default }) ∧
      r.name k = ([], { r with info_map_ := r.info_map_.assign k default }) := by
  simp only [ColorId.defaultColor, ColorId.groupName, ColorId.name,
    StdMap.index_of_miss _ _ h]
  exact ⟨rfl, rfl, rfl⟩

theorem ValueId.value_accessors_miss (r : ValueId) (k : Nat)
    (h : r.info_map_.find k = none) :
    r.defaultValue k = (0, { r with info_map_ := r.info_map_.assign k default }) ∧
      r.info k = (⟨[], [], 0, ValueId.ScaleType.kConstant, false⟩,
        { r with info_map_ := r.info_map_.assign k default }) ∧
      r.groupName k = ([], { r with info_map_ := r.info_map_.assign k default }) ∧
      r.name k = ([], { r with info_map_ := r.info_map_.assign k default }) := by
  simp only [ValueId.defaultValue, ValueId.info, ValueId.groupName, ValueId.name,
    StdMap.index_of_miss _ _ h]
  exact ⟨rfl, rfl, rfl, rfl⟩

theorem OverrideId.override_name_miss (r : OverrideId) (k : Nat)
    (h : r.name_map_.find k = none) :
    r.name k = ([], { r with name_map_ := r.name_map_.assign k default }) := by
  simp only [OverrideId.name, StdMap.index_of_miss _ _ h]
  rfl

/-- C14 (amended): an id that is not a key of the id map is not checked by any
accessor; there is no assertion. For every registry state and every such id,
`defaultColor` / `groupName` / `name` (`ColorId`), `defaultValue` / `info` /
`groupName` / `name` (`ValueId`) and `name` (`OverrideId`) return the field of a
value-initialised entry: `0`, the empty string, `kConstant`, `false`. -/
theorem accessors_return_default_for_unissued_id (c : ColorId) (v : ValueId)
    (o : OverrideId) (k : Nat)
    (hc : c.info_map_.find k = none) (hv : v.info_map_.find k = none)
    (ho : o.name_map_.find k = none) :
    ((c.defaultColor k).1 = 0 ∧ (c.groupName k).1 = [] ∧ (c.name k).1 = []) ∧
      ((v.defaultValue k).1 = 0 ∧
        (v.info k).1 = ⟨[], [], 0, ValueId.ScaleType.kConstant, false⟩ ∧
        (v.groupName k).1 = [] ∧ (v.name k).1 = []) ∧
      (o.name k).1 = [] := by
  obtain ⟨c1, c2, c3⟩ := ColorId.color_accessors_miss c k hc
  obtain ⟨v1, v2, v3, v4⟩ := ValueId.value_accessors_miss v k hv
  have o1 := OverrideId.override_name_miss o k ho
  rw [c1, c2, c3, v1, v2, v3, v4, o1]
  exact ⟨⟨rfl, rfl, rfl⟩, ⟨rfl, rfl, rfl, rfl⟩, rfl⟩

/-- C14 at a concrete input: the id 7 in registries that hold one registered
entry each (besides the seeded one of `OverrideId`). -/
theorem accessors_return_default_for_unissued_id_witness :
    (((({ next_id_ := 1, info_map_ := (StdMap.empty.assign 0
            ⟨"Red".data, "Red".data, 0xFFFF0000⟩) } : ColorId).defaultColor 7).1 = 0 ∧
        (({ next_id_ := 1, info_map_ := (StdMap.empty.assign 0
            ⟨"Red".data, "Red".data, 0xFFFF0000⟩) } : ColorId).groupName 7).1 = [] ∧
        (({ next_id_ := 1, info_map_ := (StdMap.empty.assign 0
            ⟨"Red".data, "Red".data, 0xFFFF0000⟩) } : ColorId).name 7).1 = []) ∧
      ((({ next_id_ := 1, info_map_ := (StdMap.empty.assign 0
            ⟨"Gap".data, "Knob".data, 0x41200000, ValueId.ScaleType.kScaledDpi, true⟩) }
            : ValueId).defaultValue 7).1 = 0 ∧
        (({ next_id_ := 1, info_map_ := (StdMap.empty.assign 0
            ⟨"Gap".data, "Knob".data, 0x41200000, ValueId.ScaleType.kScaledDpi, true⟩) }
            : ValueId).info 7).1 = ⟨[], [], 0, ValueId.ScaleType.kConstant, false⟩ ∧
        (({ next_id_ := 1, info_map_ := (StdMap.empty.assign 0
            ⟨"Gap".data, "Knob".data, 0x41200000, ValueId.ScaleType.kScaledDpi, true⟩) }
            : ValueId).groupName 7).1 = [] ∧
        (({ next_id_ := 1, info_map_ := (StdMap.empty.assign 0
            ⟨"Gap".data, "Knob".data, 0x41200000, ValueId.ScaleType.kScaledDpi, true⟩) }
            : ValueId).name 7).1 = []) ∧
      ((OverrideId.fresh.nextId "Dark".data).2.name 7).1 = []) :=
  accessors_return_default_for_unissued_id
    { next_id_ := 1, info_map_ := StdMap.empty.assign 0 ⟨"Red".data, "Red".data, 0xFFFF0000⟩ }
    { next_id_ := 1, info_map_ := (StdMap.empty.assign 0
        ⟨"Gap".data, "Knob".data, 0x41200000, ValueId.ScaleType.kScaledDpi, true⟩) }
    (OverrideId.fresh.nextId "Dark".data).2 7 (by decide) (by decide) (by decide)

/-- C14 fails as stated: on fresh registries, where the id 7 was never issued,
every accessor called with 7 returns a value. -/
theorem accessors_return_value_for_unissued_id :
    (ColorId.fresh.defaultColor 7).1 = 0 ∧ (ColorId.fresh.groupName 7).1 = "".data ∧
      (ColorId.fresh.name 7).1 = "".data ∧
      (ValueId.fresh.defaultValue 7).1 = 0 ∧
      (ValueId.fresh.info 7).1 = ⟨"".data, "".data, 0, ValueId.ScaleType.kConstant, false⟩ ∧
      (ValueId.fresh.groupName 7).1 = "".data ∧ (ValueId.fresh.name 7).1 = "".data ∧
      (OverrideId.fresh.name 7).1 = "".data := by
  decide

/-! ## What an accessor inserts -/

theorem nameIds_empty_mapped {V : Type} (f : V → CppString) (m : StdMap Nat V) (k : Nat)
    (d : V) (hd : f d = []) :
    EmptyNameMapped
      ((m.assign k d).entries.foldl
        (fun (result : StdMap CppString Nat) a => result.assign (f a.2) a.1) StdMap.empty)
      (fun j => ((m.assign k d).find j).map f) k := by
  have hk : (k, d) ∈ (m.assign k d).entries :=
    mem_of_findEntry _ _ _ (StdMap.find_assign_self m k d)
  obtain ⟨i, hi⟩ := (nameIds_fold_key f (m.assign k d).entries []).2 ⟨(k, d), hk, hd⟩
  obtain ⟨⟨w, hw, hfw⟩, hmax⟩ :=
    (nameIds_fold f (m.assign k d).entries (m.assign k d).ordered [] i).1 hi
  have hki : k ≤ i := hmax k d hk hd
  have hname : ((m.assign k d).find i).map f = some [] := by
    have hfind : (m.assign k d).find i = some w :=
      findEntry_of_mem _ _ _ (m.assign k d).ordered hw
    rw [hfind, Option.map_some', hfw]
  refine ⟨i, hi, hname, ?_, hki, ?_⟩
  · intro j hj
    simp only at hj
    cases hfind : (m.assign k d).find j with
    | none =>
      rw [hfind] at hj
      exact absurd hj (by simp)
    | some u =>
      rw [hfind, Option.map_some', Option.some.injEq] at hj
      exact hmax j u (mem_of_findEntry _ _ _ hfind) hj
  · intro hnone
    rcases Nat.lt_or_eq_of_le hki with hlt | heq
    · exact absurd hname (hnone i hlt)
    · exact heq.symm

/-- C17 (amended): accessors on an id that is not a key of the id map are not
read-only. For every registry state and every such id `k`, `name(k)` /
`groupName(k)` / `defaultColor(k)` / `defaultValue(k)` / `info(k)` return the
fields of a value-initialised entry and insert that entry under `k`, while
`next_id_` is unchanged. Afterwards `nameIdMap()` has the empty name as a key,
mapped to the greatest id whose name is empty, which is `k` when no greater id
has an empty name; and `OverrideId::id("")` returns an id instead of reaching
the assertion, the smallest id whose name is empty, which is `k` when no
smaller id has an empty name. -/
theorem accessors_insert_for_unissued_id (c : ColorId) (v : ValueId) (o : OverrideId)
    (k : Nat) (hc : c.info_map_.find k = none) (hv : v.info_map_.find k = none)
    (ho : o.name_map_.find k = none) :
    (c.name k = ([], c.withDefaultEntry k) ∧ c.groupName k = ([], c.withDefaultEntry k) ∧
        c.defaultColor k = (0, c.withDefaultEntry k) ∧
        (c.withDefaultEntry k).next_id_ = c.next_id_ ∧
        (c.withDefaultEntry k).info_map_.find k = some ⟨[], [], 0⟩ ∧
        EmptyNameMapped (c.withDefaultEntry k).nameIdMap
          (fun j => ((c.withDefaultEntry k).info_map_.find j).map (fun e => e.name)) k) ∧
      (v.name k = ([], v.withDefaultEntry k) ∧ v.groupName k = ([], v.withDefaultEntry k) ∧
        v.defaultValue k = (0, v.withDefaultEntry k) ∧
        v.info k = (⟨[], [], 0, ValueId.ScaleType.kConstant, false⟩, v.withDefaultEntry k) ∧
        (v.withDefaultEntry k).next_id_ = v.next_id_ ∧
        (v.withDefaultEntry k).info_map_.find k
          = some ⟨[], [], 0, ValueId.ScaleType.kConstant, false⟩ ∧
        EmptyNameMapped (v.withDefaultEntry k).nameIdMap
          (fun j => ((v.withDefaultEntry k).info_map_.find j).map (fun e => e.name)) k) ∧
      (o.name k = ([], o.withDefaultEntry k) ∧
        (o.withDefaultEntry k).next_id_ = o.next_id_ ∧
        (o.withDefaultEntry k).name_map_.find k = some [] ∧
        EmptyNameMapped (o.withDefaultEntry k).nameIdMap
          (fun j => (o.withDefaultEntry k).name_map_.find j) k ∧
        EmptyNameFound ((o.withDefaultEntry k).id [])
          (fun j => (o.withDefaultEntry k).name_map_.find j) k) := by
  obtain ⟨c1, c2, c3⟩ := ColorId.color_accessors_miss c k hc
  obtain ⟨v1, v2, v3, v4⟩ := ValueId.value_accessors_miss v k hv
  have o1 := OverrideId.override_name_miss o k ho
  refine ⟨⟨c3, c2, c1, rfl, StdMap.find_assign_self _ _ _, ?_⟩,
    ⟨v4, v3, v1, v2, rfl, StdMap.find_assign_self _ _ _, ?_⟩,
    ⟨o1, rfl, StdMap.find_assign_self _ _ _, ?_, ?_⟩⟩
  · exact nameIds_empty_mapped (fun (e : ColorId.ColorIdInfo) => e.name) c.info_map_ k
      default rfl
  · exact nameIds_empty_mapped (fun (e : ValueId.ValueIdInfo) => e.name) v.info_map_ k
      default rfl
  · have h := nameIds_empty_mapped (fun (e : CppString) => e) o.name_map_ k default rfl
    simp only [Option.map_id'] at h
    exact h
  · have hfind : (o.withDefaultEntry k).name_map_.find k = some [] :=
      StdMap.find_assign_self _ _ _
    obtain ⟨i, hi, hname, hmin⟩ := OverrideId.override_id_smallest (o.withDefaultEntry k) []
      ⟨(k, []), mem_of_findEntry _ _ _ hfind, rfl⟩
    refine ⟨i, hi, hname, hmin, hmin k hfind, ?_⟩
    intro hnone
    rcases Nat.lt_or_eq_of_le (hmin k hfind) with hlt | heq
    · exact absurd hname (hnone i hlt)
    · exact heq

/-- C17 at a concrete input: the id 7 on fresh registries. -/
theorem accessors_insert_for_unissued_id_witness :
    (ColorId.fresh.name 7 = ([], ColorId.fresh.withDefaultEntry 7) ∧
        ColorId.fresh.groupName 7 = ([], ColorId.fresh.withDefaultEntry 7) ∧
        ColorId.fresh.defaultColor 7 = (0, ColorId.fresh.withDefaultEntry 7) ∧
        (ColorId.fresh.withDefaultEntry 7).next_id_ = ColorId.fresh.next_id_ ∧
        (ColorId.fresh.withDefaultEntry 7).info_map_.find 7 = some ⟨[], [], 0⟩ ∧
        EmptyNameMapped (ColorId.fresh.withDefaultEntry 7).nameIdMap
          (fun j => ((ColorId.fresh.withDefaultEntry 7).info_map_.find j).map
            (fun e => e.name)) 7) ∧
      (ValueId.fresh.name 7 = ([], ValueId.fresh.withDefaultEntry 7) ∧
        ValueId.fresh.groupName 7 = ([], ValueId.fresh.withDefaultEntry 7) ∧
        ValueId.fresh.defaultValue 7 = (0, ValueId.fresh.withDefaultEntry 7) ∧
        ValueId.fresh.info 7 = (⟨[], [], 0, ValueId.ScaleType.kConstant, false⟩,
          ValueId.fresh.withDefaultEntry 7) ∧
        (ValueId.fresh.withDefaultEntry 7).next_id_ = ValueId.fresh.next_id_ ∧
        (ValueId.fresh.withDefaultEntry 7).info_map_.find 7
          = some ⟨[], [], 0, ValueId.ScaleType.kConstant, false⟩ ∧
        EmptyNameMapped (ValueId.fresh.withDefaultEntry 7).nameIdMap
          (fun j => ((ValueId.fresh.withDefaultEntry 7).info_map_.find j).map
            (fun e => e.name)) 7) ∧
      (OverrideId.fresh.name 7 = ([], OverrideId.fresh.withDefaultEntry 7) ∧
        (OverrideId.fresh.withDefaultEntry 7).next_id_ = OverrideId.fresh.next_id_ ∧
        (OverrideId.fresh.withDefaultEntry 7).name_map_.find 7 = some [] ∧
        EmptyNameMapped (OverrideId.fresh.withDefaultEntry 7).nameIdMap
          (fun j => (OverrideId.fresh.withDefaultEntry 7).name_map_.find j) 7 ∧
        EmptyNameFound ((OverrideId.fresh.withDefaultEntry 7).id [])
          (fun j => (OverrideId.fresh.withDefaultEntry 7).name_map_.find j) 7) :=
  accessors_insert_for_unissued_id ColorId.fresh ValueId.fresh OverrideId.fresh 7
    (by decide) (by decide) (by decide)

/-- C17 fails as stated: after `name(5)` on a fresh `ColorId` registry, which
inserts a value-initialised entry under the id 5, the id 3 is not a key;
`name(3)` returns the empty name and inserts its entry, and afterwards
`nameIdMap()` maps the empty name to 5, not to 3. -/
theorem ColorId.empty_name_not_mapped_to_new_key :
    (ColorId.fresh.name 5).2.info_map_.find 3 = none ∧
      ((ColorId.fresh.name 5).2.name 3).1 = "".data ∧
      ((ColorId.fresh.name 5).2.name 3).2.info_map_.find 3 = some ⟨[], [], 0⟩ ∧
      ((ColorId.fresh.name 5).2.name 3).2.nameIdMap.find "".data = some 5 ∧
      ((ColorId.fresh.name 5).2.name 3).2.nameIdMap.find "".data ≠ some 3 := by
  decide

/-! ## What queries and `nextId` change -/

theorem ColorId.color_accessors_hit (r : ColorId) (k : Nat) (e : ColorId.ColorIdInfo)
    (h : r.info_map_.find k = some e) :
    (r.defaultColor k).2 = r ∧ (r.groupName k).2 = r ∧ (r.name k).2 = r := by
  simp [ColorId.defaultColor, ColorId.groupName, ColorId.name, StdMap.index_of_find _ _ _ h]

theorem ValueId.value_accessors_hit (r : ValueId) (k : Nat) (e : ValueId.ValueIdInfo)
    (h : r.info_map_.find k = some e) :
    (r.defaultValue k).2 = r ∧ (r.info k).2 = r ∧ (r.groupName k).2 = r ∧
      (r.name k).2 = r := by
  simp [ValueId.defaultValue, ValueId.info, ValueId.groupName, ValueId.name,
    StdMap.index_of_find _ _ _ h]

theorem OverrideId.perform_keeps_key_zero (r : OverrideId) (c : OverrideId.Call)
    (h : ∃ v, r.name_map_.find 0 = some v) :
    ∃ v, (r.perform c).name_map_.find 0 = some v := by
  cases c with
  | nextId n =>
    simp only [OverrideId.perform, OverrideId.nextId]
    by_cases h0 : (0 : Nat) = r.next_id_
    · rw [← h0]
      exact ⟨n, StdMap.find_assign_self _ _ _⟩
    · rw [StdMap.find_assign_ne _ _ _ _ h0]
      exact h
  | name i =>
    simp only [OverrideId.perform, OverrideId.name, StdMap.index]
    cases hi : r.name_map_.find i with
    | some w => exact h
    | none =>
      simp only
      by_cases h0 : (0 : Nat) = i
      · rw [← h0]
        exact ⟨default, StdMap.find_assign_self _ _ _⟩
      · rw [StdMap.find_assign_ne _ _ _ _ h0]
        exact h
  | id n => exact h
  | nameIdMap => exact h
  | numOverrideIds => exact h

theorem OverrideId.performAll_keeps_key_zero (calls : List OverrideId.Call) (r : OverrideId)
    (h : ∃ v, r.name_map_.find 0 = some v) :
    ∃ v, (r.performAll calls).name_map_.find 0 = some v := by
  induction calls generalizing r with
  | nil => exact h
  | cons c rest ih =>
    simp only [OverrideId.performAll, List.foldl_cons]
    exact ih (r.perform c) (OverrideId.perform_keeps_key_zero r c h)

/-- C15 (amended): queries are read-only on the keys of the id map. For every
registry state and every id that is a key of the id map (every issued id; the
id 0 of `OverrideId` after any sequence of calls on a fresh registry), each
accessor leaves the registry exactly as it is, and so do `id`, `nameIdMap` and
the count. `nextId` leaves the entry of every key other than `next_id_` as it
is, so no entry is ever removed; under the key `next_id_` it puts the new entry. -/
theorem queries_leave_registry_unchanged (c : ColorId) (v : ValueId) (o : OverrideId)
    (k : Nat) (ec : ColorId.ColorIdInfo) (ev : ValueId.ValueIdInfo) (eo : CppString)
    (calls : List OverrideId.Call) (n name file_path : CppString)
    (default_color default_value : Nat) (scale_type : ValueId.ScaleType)
    (round_to_pixel : Bool)
    (hc : c.info_map_.find k = some ec) (hv : v.info_map_.find k = some ev)
    (ho : o.name_map_.find k = some eo) (hpath : file_path ≠ []) :
    ((c.defaultColor k).2 = c ∧ (c.groupName k).2 = c ∧ (c.name k).2 = c) ∧
      ((v.defaultValue k).2 = v ∧ (v.info k).2 = v ∧ (v.groupName k).2 = v ∧
        (v.name k).2 = v) ∧
      ((o.name k).2 = o ∧ o.perform (OverrideId.Call.id n) = o ∧
        o.perform OverrideId.Call.nameIdMap = o ∧
        o.perform OverrideId.Call.numOverrideIds = o ∧
        ((OverrideId.fresh.performAll calls).name 0).2 = OverrideId.fresh.performAll calls) ∧
      (∃ group c', nameFromPath file_path = some group ∧
        c.nextId name file_path default_color = some (c.next_id_, c') ∧
        c'.info_map_.find c.next_id_ = some ⟨name, group, default_color⟩ ∧
        ∀ j, j ≠ c.next_id_ → c'.info_map_.find j = c.info_map_.find j) ∧
      (∃ group v', nameFromPath file_path = some group ∧
        v.nextId name file_path default_value scale_type round_to_pixel
          = some (v.next_id_, v') ∧
        v'.info_map_.find v.next_id_
          = some ⟨name, group, default_value, scale_type, round_to_pixel⟩ ∧
        ∀ j, j ≠ v.next_id_ → v'.info_map_.find j = v.info_map_.find j) ∧
      ((o.nextId name).2.name_map_.find o.next_id_ = some name ∧
        ∀ j, j ≠ o.next_id_ → (o.nextId name).2.name_map_.find j = o.name_map_.find j) := by
  refine ⟨ColorId.color_accessors_hit c k ec hc, ValueId.value_accessors_hit v k ev hv,
    ⟨?_, rfl, rfl, rfl, ?_⟩, ?_, ?_, ?_, ?_⟩
  · rw [OverrideId.override_name_of_find o k eo ho]
  · obtain ⟨w, hw⟩ := OverrideId.performAll_keeps_key_zero calls OverrideId.fresh
      ⟨"Global".data, by decide⟩
    rw [OverrideId.override_name_of_find _ 0 w hw]
  · obtain ⟨g, hg, hnext⟩ := ColorId.color_nextId_nonempty c name file_path default_color
      hpath
    exact ⟨g, _, hg, hnext, StdMap.find_assign_self _ _ _,
      fun j hj => StdMap.find_assign_ne _ _ _ _ hj⟩
  · obtain ⟨g, hg, hnext⟩ := ValueId.value_nextId_nonempty v name file_path default_value
      scale_type round_to_pixel hpath
    exact ⟨g, _, hg, hnext, StdMap.find_assign_self _ _ _,
      fun j hj => StdMap.find_assign_ne _ _ _ _ hj⟩
  · exact StdMap.find_assign_self _ _ _
  · intro j hj
    exact StdMap.find_assign_ne _ _ _ _ hj

/-- C15 at a concrete input: the id 0 in registries that hold one registered
entry each, a sequence of calls on a fresh `OverrideId` registry, and a further
registration. -/
theorem queries_leave_registry_unchanged_witness :
    ((ColorId.oneColor.defaultColor 0).2 = ColorId.oneColor ∧
        (ColorId.oneColor.groupName 0).2 = ColorId.oneColor ∧
        (ColorId.oneColor.name 0).2 = ColorId.oneColor) ∧
      ((ValueId.oneValue.defaultValue 0).2 = ValueId.oneValue ∧
        (ValueId.oneValue.info 0).2 = ValueId.oneValue ∧
        (ValueId.oneValue.groupName 0).2 = ValueId.oneValue ∧
        (ValueId.oneValue.name 0).2 = ValueId.oneValue) ∧
      ((OverrideId.fresh.name 0).2 = OverrideId.fresh ∧
        OverrideId.fresh.perform (OverrideId.Call.id "Dark".data) = OverrideId.fresh ∧
        OverrideId.fresh.perform OverrideId.Call.nameIdMap = OverrideId.fresh ∧
        OverrideId.fresh.perform OverrideId.Call.numOverrideIds = OverrideId.fresh ∧
        ((OverrideId.fresh.performAll
            [OverrideId.Call.nextId "Dark".data, OverrideId.Call.name 9]).name 0).2
          = OverrideId.fresh.performAll
            [OverrideId.Call.nextId "Dark".data, OverrideId.Call.name 9]) ∧
      (∃ group c', nameFromPath "colors/Blue.h".data = some group ∧
        ColorId.oneColor.nextId "Blue".data "colors/Blue.h".data 0xFF0000FF
          = some (ColorId.oneColor.next_id_, c') ∧
        c'.info_map_.find ColorId.oneColor.next_id_ = some ⟨"Blue".data, group, 0xFF0000FF⟩ ∧
        ∀ j, j ≠ ColorId.oneColor.next_id_ →
          c'.info_map_.find j = ColorId.oneColor.info_map_.find j) ∧
      (∃ group v', nameFromPath "colors/Blue.h".data = some group ∧
        ValueId.oneValue.nextId "Blue".data "colors/Blue.h".data 0x3F000000
          ValueId.ScaleType.kConstant false = some (ValueId.oneValue.next_id_, v') ∧
        v'.info_map_.find ValueId.oneValue.next_id_
          = some ⟨"Blue".data, group, 0x3F000000, ValueId.ScaleType.kConstant, false⟩ ∧
        ∀ j, j ≠ ValueId.oneValue.next_id_ →
          v'.info_map_.find j = ValueId.oneValue.info_map_.find j) ∧
      ((OverrideId.fresh.nextId "Blue".data).2.name_map_.find OverrideId.fresh.next_id_
          = some "Blue".data ∧
        ∀ j, j ≠ OverrideId.fresh.next_id_ →
          (OverrideId.fresh.nextId "Blue".data).2.name_map_.find j
            = OverrideId.fresh.name_map_.find j) :=
  queries_leave_registry_unchanged ColorId.oneColor ValueId.oneValue OverrideId.fresh 0
    ⟨"Red".data, "Red".data, 0xFFFF0000⟩
    ⟨"Gap".data, "Knob".data, 0x41200000, ValueId.ScaleType.kScaledDpi, true⟩
    "Global".data
    [OverrideId.Call.nextId "Dark".data, OverrideId.Call.name 9]
    "Dark".data "Blue".data "colors/Blue.h".data 0xFF0000FF 0x3F000000
    ValueId.ScaleType.kConstant false
    (by decide) (by decide) (by decide) (by decide)

theorem OverrideId.override_zero_renamed (l : List (List Char)) (x : List Char)
    (hlen : l.length = UINT_MOD - 1) :
    (OverrideId.fresh.registerAll (l ++ [x])).2.name_map_.find 0 = some x := by
  have hzero : (OverrideId.fresh.registerAll l).2.next_id_ = 0 := by
    rw [OverrideId.override_counter l OverrideId.fresh (by decide), hlen]
    decide
  rw [OverrideId.override_registerAll_append]
  simp only [OverrideId.registerAll, OverrideId.nextId, hzero]
  exact StdMap.find_assign_self _ _ _

/-- C15 fails as stated: `nextId` does not only append. After `name(0)` on a
fresh `ColorId` registry, which inserts a value-initialised entry under the id
0, `nextId` returns 0 and replaces that entry, the map still holding one entry.
And on a fresh `OverrideId` registry, where the id 0 has the name "Global", the
last of the `2 ^ 32` registrations of `wrapAroundOverrides` replaces it by `x`. -/
theorem nextId_replaces_an_entry :
    ((ColorId.fresh.name 0).2.info_map_.find 0 = some ⟨"".data, "".data, 0⟩ ∧
        ((ColorId.fresh.name 0).2.nextId "Red".data "colors/Red.h".data 0xFFFF0000).map
            (fun a => (a.1, a.2.info_map_.find 0, a.2.info_map_.entries.length))
          = some (0, some ⟨"Red".data, "Red".data, 0xFFFF0000⟩, 1)) ∧
      (OverrideId.fresh.name_map_.find 0 = some "Global".data ∧
        (OverrideId.fresh.registerAll wrapAroundOverrides).2.name_map_.find 0
          = some "x".data) :=
  ⟨by decide, by decide,
    OverrideId.override_zero_renamed (List.replicate (UINT_MOD - 1) "x".data) "x".data
      (List.length_replicate _ _)⟩

end theme
